import Mathlib

/-!
Verification of the conversation-graph / turn-lifecycle core of the
AI-Chat client library.

The embedding is shallow: each TypeScript class becomes a Lean structure,
each (synchronous) method becomes a pure function from the old state to
the new state.  Wall-clock reads (`Date.now()`) are modelled by an
explicit time argument `t : Nat` passed to every operation; all `now()`
calls inside one synchronous method share that argument.  Generated ids
(`makeId`, a UUID in the source) are modelled by a per-conversation
counter, so ids are unique exactly as UUIDs are assumed to be.
JavaScript `undefined` is modelled by `Option`.
-/

set_option maxHeartbeats 1000000

namespace AIChat

/-- A value inside an `info` record (`Record<string, any>` in the source);
only strings, numbers and booleans occur in the code under study. -/
inductive IVal where
  | str (s : String)
  | nat (n : Nat)
  | bool (b : Bool)
deriving Repr, DecidableEq

/-- An open key-value map (`Record<string, any>`), as an ordered
association list, mirroring JS object key order. -/
abbrev Info := List (String × IVal)

/-- JS object-spread merge `{ ...old, ...upd }`: keys of `old` keep their
position (values overridden by `upd` when present there), then keys of
`upd` that are not in `old` are appended in order. -/
def jsMerge (old upd : Info) : Info :=
  (old.map (fun p => match upd.lookup p.1 with
    | some v => (p.1, v)
    | none => p))
  ++ upd.filter (fun q => (old.lookup q.1).isNone)

/-- `ProcessStatus` from models/Path.ts. -/
inductive ProcessStatus where
  | notStarted
  | queued
  | running
  | done
  | error
deriving Repr, DecidableEq

/-- `ProcessStep` from models/Path.ts. -/
structure Step where
  name : String
  startedAt : Nat
  endedAt : Option Nat := none
  ok : Option Bool := none
  info : Option Info := none
deriving Repr, DecidableEq

/-- `PathProcess` from models/Path.ts. -/
structure PathProcess where
  label : Option String := none
  status : ProcessStatus := .notStarted
  startedAt : Option Nat := none
  endedAt : Option Nat := none
  steps : List Step := []
deriving Repr, DecidableEq

/-- The `Path` class from models/Path.ts.  The random `id` and the
`createdAt` field are never read by any code modelled here and are
omitted; node references are kept as ids, as in the source. -/
structure Path where
  fromId : Option Nat := none
  toId : Option Nat := none
  process : PathProcess := {}
deriving Repr, DecidableEq

namespace Path

/-- `new Path(fromId, toId, label)`: `if (label) this.process.label = label`
(an empty string is falsy in JS, hence dropped). -/
def mk' (f t : Option Nat) (label : Option String) : Path :=
  { fromId := f, toId := t,
    process := { label := match label with
                          | some l => if l = "" then none else some l
                          | none => none } }

/-- `x ??= t` on an optional value: keep an existing value. -/
def keepOr (o : Option Nat) (t : Nat) : Option Nat :=
  match o with
  | some x => some x
  | none => some t

/-- `Path.ensureQueued` (private). -/
def ensureQueued (t : Nat) (p : Path) : Path :=
  if p.process.status = .notStarted then
    { p with process := { p.process with status := .queued, startedAt := some t } }
  else p

/-- The second half of `ensureRunning`: `queued → running`,
`startedAt ??= now()`. -/
def runIfQueued (t : Nat) (p : Path) : Path :=
  if p.process.status = .queued then
    { p with process := { p.process with
        status := .running, startedAt := keepOr p.process.startedAt t } }
  else p

/-- `Path.ensureRunning` (private). -/
def ensureRunning (t : Nat) (p : Path) : Path :=
  runIfQueued t (if p.process.status = .notStarted then ensureQueued t p else p)

/-- The mutation `closeOpenStep` performs on the open step it closes:
`s.endedAt = now()`, `if (ok !== undefined) s.ok = ok`,
`if (extra) s.info = { ...(s.info ?? {}), ...extra }`. -/
def closeStep (t : Nat) (okv : Option Bool) (extra : Option Info) (s : Step) : Step :=
  { s with
    endedAt := some t
    ok := match okv with | some b => some b | none => s.ok
    info := match extra with
            | some e => some (jsMerge (s.info.getD []) e)
            | none => s.info }

/-- `Path.closeOpenStep` (private): closes the last step if it is open;
`ok` is only overwritten when the argument is defined, `extra` is
shallow-merged into `info`. -/
def closeOpenStep (t : Nat) (okv : Option Bool) (extra : Option Info) (p : Path) : Path :=
  match p.process.steps.getLast? with
  | none => p
  | some s =>
    if s.endedAt.isSome then p
    else
      { p with process := { p.process with
          steps := p.process.steps.dropLast ++ [closeStep t okv extra s] } }

/-- `this.process.steps.push({ name, startedAt: now(), info })`. -/
def pushStep (n : String) (t : Nat) (i : Option Info) (p : Path) : Path :=
  { p with process := { p.process with
      steps := p.process.steps ++ [{ name := n, startedAt := t, info := i }] } }

/-- Set the whole-path terminal fields, as the first two lines of
`done()` / `error()` do. -/
def setStatusEnded (st : ProcessStatus) (t : Nat) (p : Path) : Path :=
  { p with process := { p.process with status := st, endedAt := some t } }

/-- `Path.start()`. -/
def start (t : Nat) (p : Path) : Path := ensureQueued t p

/-- `Path.running()`. -/
def running (t : Nat) (p : Path) : Path := ensureRunning t p

/-- `Path.step(name, info?)`: ensure running, auto-close the open step,
push a fresh open step. -/
def step (t : Nat) (name : String) (info : Option Info) (p : Path) : Path :=
  pushStep name t info (closeOpenStep t none none (ensureRunning t p))

/-- `Path.endStep(ok = true, extra?)`. -/
def endStep (t : Nat) (okv : Bool) (extra : Option Info) (p : Path) : Path :=
  closeOpenStep t (some okv) extra p

/-- `Path.done()`. -/
def done (t : Nat) (p : Path) : Path :=
  closeOpenStep t (some true) none (setStatusEnded .done t p)

/-- `Path.error(info?)`; JS `if (info)` is true for every supplied object. -/
def error (t : Nat) (info : Option Info) (p : Path) : Path :=
  match info with
  | some i => endStep t false none (step t "error" (some i)
      (closeOpenStep t (some false) none (setStatusEnded .error t p)))
  | none => closeOpenStep t (some false) none (setStatusEnded .error t p)

end Path

/-- One public `Path` operation, time-stamped with the wall clock at the
moment of the call. -/
inductive PathOp where
  | start (t : Nat)
  | running (t : Nat)
  | step (t : Nat) (name : String) (info : Option Info)
  | endStep (t : Nat) (okv : Bool) (extra : Option Info)
  | done (t : Nat)
  | error (t : Nat) (info : Option Info)

/-- Apply one public operation. -/
def applyOp (p : Path) (op : PathOp) : Path :=
  match op with
  | .start t => Path.start t p
  | .running t => Path.running t p
  | .step t n i => Path.step t n i p
  | .endStep t o e => Path.endStep t o e p
  | .done t => Path.done t p
  | .error t i => Path.error t i p

/-- Apply a sequence of public operations in order. -/
def applyOps (ops : List PathOp) (p : Path) : Path := ops.foldl applyOp p

/-- A freshly constructed path with no label, as `new Path()`. -/
def freshPath : Path := Path.mk' none none none

/-- Number of open steps (steps whose `endedAt` is absent). -/
def openCount (l : List Step) : Nat := l.countP (fun s => s.endedAt.isNone)

/-- All steps except possibly the last are closed. -/
def stepsClosed (l : List Step) : Bool := l.dropLast.all (fun s => s.endedAt.isSome)

namespace Path

theorem closeOpenStep_of_nil (t : Nat) (okv : Option Bool) (extra : Option Info) (p : Path)
    (h : p.process.steps.getLast? = none) :
    closeOpenStep t okv extra p = p := by
  unfold closeOpenStep
  rw [h]

theorem closeOpenStep_of_last_closed (t : Nat) (okv : Option Bool) (extra : Option Info)
    (p : Path) (s : Step) (h : p.process.steps.getLast? = some s) (hc : s.endedAt.isSome) :
    closeOpenStep t okv extra p = p := by
  unfold closeOpenStep
  rw [h]
  simp [hc]

theorem closeOpenStep_of_last_open (t : Nat) (okv : Option Bool) (extra : Option Info)
    (p : Path) (s : Step) (h : p.process.steps.getLast? = some s) (ho : s.endedAt = none) :
    closeOpenStep t okv extra p =
      { p with process := { p.process with
          steps := p.process.steps.dropLast ++ [closeStep t okv extra s] } } := by
  unfold closeOpenStep
  rw [h]
  simp [ho]

theorem closeOpenStep_of_allClosed (t : Nat) (okv : Option Bool) (extra : Option Info)
    (p : Path) (h : p.process.steps.all (fun s => s.endedAt.isSome) = true) :
    closeOpenStep t okv extra p = p := by
  cases hl : p.process.steps.getLast? with
  | none => exact closeOpenStep_of_nil t okv extra p hl
  | some s =>
    apply closeOpenStep_of_last_closed t okv extra p s hl
    rw [List.all_eq_true] at h
    have hds := List.dropLast_append_getLast? s (Option.mem_def.mpr hl)
    apply h s
    rw [← hds]
    simp

theorem closeOpenStep_status (t : Nat) (okv : Option Bool) (extra : Option Info) (p : Path) :
    (closeOpenStep t okv extra p).process.status = p.process.status := by
  unfold closeOpenStep
  cases h : p.process.steps.getLast? with
  | none => rfl
  | some s =>
    dsimp only
    split <;> rfl

theorem closeOpenStep_startedAt (t : Nat) (okv : Option Bool) (extra : Option Info) (p : Path) :
    (closeOpenStep t okv extra p).process.startedAt = p.process.startedAt := by
  unfold closeOpenStep
  cases h : p.process.steps.getLast? with
  | none => rfl
  | some s =>
    dsimp only
    split <;> rfl

theorem closeOpenStep_endedAt (t : Nat) (okv : Option Bool) (extra : Option Info) (p : Path) :
    (closeOpenStep t okv extra p).process.endedAt = p.process.endedAt := by
  unfold closeOpenStep
  cases h : p.process.steps.getLast? with
  | none => rfl
  | some s =>
    dsimp only
    split <;> rfl

theorem ensureQueued_steps (t : Nat) (p : Path) :
    (ensureQueued t p).process.steps = p.process.steps := by
  unfold ensureQueued
  split <;> rfl

theorem ensureRunning_steps (t : Nat) (p : Path) :
    (ensureRunning t p).process.steps = p.process.steps := by
  cases h : p.process.status <;>
    simp [ensureRunning, runIfQueued, ensureQueued, h]

theorem ensureQueued_of_not_notStarted (t : Nat) (p : Path)
    (h : p.process.status ≠ .notStarted) : ensureQueued t p = p := by
  unfold ensureQueued
  simp [h]

theorem ensureRunning_of_terminal (t : Nat) (p : Path)
    (h : p.process.status = .done ∨ p.process.status = .error) : ensureRunning t p = p := by
  rcases h with h | h <;> simp [ensureRunning, runIfQueued, ensureQueued, h]

theorem ensureRunning_status (t : Nat) (p : Path) :
    (ensureRunning t p).process.status =
      if p.process.status = .notStarted ∨ p.process.status = .queued then .running
      else p.process.status := by
  cases h : p.process.status <;>
    simp [ensureRunning, runIfQueued, ensureQueued, h]

/-- `step` leaves the turn status where `ensureRunning` put it. -/
theorem step_status (t : Nat) (n : String) (i : Option Info) (p : Path) :
    (step t n i p).process.status = (ensureRunning t p).process.status := by
  show (pushStep n t i (closeOpenStep t none none (ensureRunning t p))).process.status = _
  rw [show (pushStep n t i (closeOpenStep t none none (ensureRunning t p))).process.status
    = (closeOpenStep t none none (ensureRunning t p)).process.status from rfl]
  rw [closeOpenStep_status]

theorem step_steps (t : Nat) (n : String) (i : Option Info) (p : Path) :
    (step t n i p).process.steps =
      (closeOpenStep t none none (ensureRunning t p)).process.steps ++
        [{ name := n, startedAt := t, info := i }] := rfl

end Path

/-- A list of steps that are all closed satisfies `stepsClosed`. -/
theorem stepsClosed_of_allClosed (l : List Step)
    (h : l.all (fun s => s.endedAt.isSome) = true) : stepsClosed l = true := by
  unfold stepsClosed
  rw [List.all_eq_true] at h ⊢
  intro s hs
  exact h s (List.dropLast_subset l hs)

/-- After `closeOpenStep`, a `stepsClosed` step list is entirely closed. -/
theorem closeOpenStep_allClosed (t : Nat) (okv : Option Bool) (extra : Option Info) (p : Path)
    (h : stepsClosed p.process.steps = true) :
    (Path.closeOpenStep t okv extra p).process.steps.all (fun s => s.endedAt.isSome) = true := by
  cases hl : p.process.steps.getLast? with
  | none =>
    rw [Path.closeOpenStep_of_nil t okv extra p hl]
    rw [List.getLast?_eq_none_iff] at hl
    simp [hl]
  | some s =>
    by_cases hc : s.endedAt.isSome
    · rw [Path.closeOpenStep_of_last_closed t okv extra p s hl hc]
      have hds := List.dropLast_append_getLast? s hl
      rw [← hds, List.all_append]
      unfold stepsClosed at h
      simp [h, hc]
    · have ho : s.endedAt = none := by
        cases he : s.endedAt
        · rfl
        · exact absurd (by simp [he]) hc
      rw [Path.closeOpenStep_of_last_open t okv extra p s hl ho]
      dsimp only
      rw [List.all_append]
      unfold stepsClosed at h
      simp [h, Path.closeStep]

/-- Every public operation preserves the "all but the last step closed"
invariant. -/
theorem stepsClosed_applyOp (p : Path) (op : PathOp)
    (h : stepsClosed p.process.steps = true) :
    stepsClosed (applyOp p op).process.steps = true := by
  cases op with
  | start t =>
    simpa [applyOp, Path.start, Path.ensureQueued_steps] using h
  | running t =>
    simpa [applyOp, Path.running, Path.ensureRunning_steps] using h
  | step t n i =>
    show stepsClosed (Path.step t n i p).process.steps = true
    rw [Path.step_steps]
    unfold stepsClosed
    rw [List.dropLast_concat]
    apply closeOpenStep_allClosed
    rw [show (Path.ensureRunning t p).process.steps = p.process.steps from
      Path.ensureRunning_steps t p]
    exact h
  | endStep t o e =>
    exact stepsClosed_of_allClosed _ (closeOpenStep_allClosed t (some o) e p h)
  | done t =>
    apply stepsClosed_of_allClosed
    apply closeOpenStep_allClosed
    exact h
  | error t i =>
    show stepsClosed (Path.error t i p).process.steps = true
    unfold Path.error
    have h2 : (Path.closeOpenStep t (some false) none
        { p with process := { p.process with status := .error, endedAt := some t } }
      ).process.steps.all (fun s => s.endedAt.isSome) = true :=
      closeOpenStep_allClosed t (some false) none _ h
    cases i with
    | none => exact stepsClosed_of_allClosed _ h2
    | some iv =>
      dsimp only
      apply stepsClosed_of_allClosed
      unfold Path.endStep
      apply closeOpenStep_allClosed
      rw [Path.step_steps]
      unfold stepsClosed
      rw [List.dropLast_concat]
      rw [Path.closeOpenStep_of_allClosed t none none _
        ((Path.ensureRunning_steps t _).symm ▸ h2)]
      rw [Path.ensureRunning_steps]
      exact h2

/-- The invariant holds for every path reachable from a fresh path. -/
theorem stepsClosed_applyOps (ops : List PathOp) (p : Path)
    (h : stepsClosed p.process.steps = true) :
    stepsClosed (applyOps ops p).process.steps = true := by
  induction ops generalizing p with
  | nil => exact h
  | cons op ops ih =>
    exact ih (applyOp p op) (stepsClosed_applyOp p op h)

/-- A step list with all-but-last closed has at most one open step. -/
theorem openCount_le_one (l : List Step) (h : stepsClosed l = true) : openCount l ≤ 1 := by
  cases hl : l.getLast? with
  | none =>
    rw [List.getLast?_eq_none_iff] at hl
    subst hl
    simp [openCount]
  | some s =>
    have hds := List.dropLast_append_getLast? s (Option.mem_def.mpr hl)
    rw [← hds]
    unfold openCount
    rw [List.countP_append]
    have h0 : l.dropLast.countP (fun s => s.endedAt.isNone) = 0 := by
      rw [List.countP_eq_zero]
      intro a ha
      unfold stepsClosed at h
      rw [List.all_eq_true] at h
      have := h a ha
      simp only [Option.isNone_iff_eq_none]
      intro hnone
      rw [hnone] at this
      simp at this
    rw [h0]
    have : List.countP (fun s => s.endedAt.isNone) [s] ≤ 1 := by
      cases hse : s.endedAt <;> simp [List.countP, List.countP.go, hse]
    omega

namespace Path

theorem ensureQueued_endedAt (t : Nat) (p : Path) :
    (ensureQueued t p).process.endedAt = p.process.endedAt := by
  unfold ensureQueued
  split <;> rfl

theorem ensureRunning_endedAt (t : Nat) (p : Path) :
    (ensureRunning t p).process.endedAt = p.process.endedAt := by
  cases h : p.process.status <;>
    simp [ensureRunning, runIfQueued, ensureQueued, h]

theorem step_endedAt (t : Nat) (n : String) (i : Option Info) (p : Path) :
    (step t n i p).process.endedAt = p.process.endedAt := by
  show (pushStep n t i (closeOpenStep t none none (ensureRunning t p))).process.endedAt = _
  rw [show (pushStep n t i (closeOpenStep t none none (ensureRunning t p))).process.endedAt
    = (closeOpenStep t none none (ensureRunning t p)).process.endedAt from rfl]
  rw [closeOpenStep_endedAt, ensureRunning_endedAt]

/-- `done()` always leaves status `done`. -/
theorem done_status (t : Nat) (p : Path) : (done t p).process.status = .done := by
  unfold done
  rw [closeOpenStep_status]
  rfl

/-- `done()` always sets `endedAt` to the call time. -/
theorem done_endedAt (t : Nat) (p : Path) : (done t p).process.endedAt = some t := by
  unfold done
  rw [closeOpenStep_endedAt]
  rfl

/-- `error()` always leaves status `error`. -/
theorem error_status (t : Nat) (i : Option Info) (p : Path) :
    (error t i p).process.status = .error := by
  unfold error
  cases i with
  | none =>
    rw [closeOpenStep_status]
    rfl
  | some iv =>
    unfold endStep
    rw [closeOpenStep_status, step_status, ensureRunning_status, closeOpenStep_status]
    simp [setStatusEnded]

/-- `error()` always sets `endedAt` to the call time. -/
theorem error_endedAt (t : Nat) (i : Option Info) (p : Path) :
    (error t i p).process.endedAt = some t := by
  unfold error
  cases i with
  | none =>
    rw [closeOpenStep_endedAt]
    rfl
  | some iv =>
    unfold endStep
    rw [closeOpenStep_endedAt, step_endedAt, closeOpenStep_endedAt]
    rfl

end Path

/-- C5 as stated is FALSE: `done` is not terminal against a subsequent
`error()` call, which unconditionally overwrites the status. -/
theorem claim5_counterexample :
    (Path.done 5 freshPath).process.status = .done ∧
    (Path.error 6 none (Path.done 5 freshPath)).process.status ≠
      (Path.done 5 freshPath).process.status := by
  constructor
  · rfl
  · decide

/-- C5 (amended): for a `Path` whose status is `done` or `error`,
`start()`, `running()`, `step()` and `endStep()` never change the status,
and re-invoking the same terminal transition keeps it; but `done()` and
`error()` set the status unconditionally, so each can overwrite the other
terminal status. -/
theorem claim5_terminal_amended (p : Path) (t : Nat) (n : String)
    (i e extra : Option Info) (okv : Bool)
    (h : p.process.status = .done ∨ p.process.status = .error) :
    (Path.start t p).process.status = p.process.status ∧
    (Path.running t p).process.status = p.process.status ∧
    (Path.step t n i p).process.status = p.process.status ∧
    (Path.endStep t okv extra p).process.status = p.process.status ∧
    (p.process.status = .done → (Path.done t p).process.status = p.process.status) ∧
    (p.process.status = .error → (Path.error t e p).process.status = p.process.status) := by
  have hns : p.process.status ≠ .notStarted := by
    rcases h with h | h <;> simp [h]
  refine ⟨?_, ?_, ?_, ?_, ?_, ?_⟩
  · rw [show Path.start t p = Path.ensureQueued t p from rfl,
      Path.ensureQueued_of_not_notStarted t p hns]
  · rw [show Path.running t p = Path.ensureRunning t p from rfl,
      Path.ensureRunning_of_terminal t p h]
  · rw [Path.step_status, Path.ensureRunning_status]
    rcases h with h | h <;> simp [h]
  · exact Path.closeOpenStep_status t (some okv) extra p
  · intro hd
    rw [Path.done_status, hd]
  · intro he
    rw [Path.error_status, he]

/-- Auto-closing the open step with `closeOpenStep(undefined)` (as `step()`
does) changes neither the recorded names nor the recorded `ok` flags. -/
theorem closeOpenStep_none_maps (t : Nat) (p : Path) :
    (Path.closeOpenStep t none none p).process.steps.map Step.name =
      p.process.steps.map Step.name ∧
    (Path.closeOpenStep t none none p).process.steps.map Step.ok =
      p.process.steps.map Step.ok := by
  cases hl : p.process.steps.getLast? with
  | none =>
    rw [Path.closeOpenStep_of_nil t none none p hl]
    exact ⟨rfl, rfl⟩
  | some s =>
    by_cases hc : s.endedAt.isSome
    · rw [Path.closeOpenStep_of_last_closed t none none p s hl hc]
      exact ⟨rfl, rfl⟩
    · have ho : s.endedAt = none := by
        cases he : s.endedAt
        · rfl
        · exact absurd (by simp [he]) hc
      rw [Path.closeOpenStep_of_last_open t none none p s hl ho]
      have hds := List.dropLast_append_getLast? s (Option.mem_def.mpr hl)
      constructor
      · conv_rhs => rw [← hds]
        simp [Path.closeStep]
      · conv_rhs => rw [← hds]
        simp [Path.closeStep]

/-- C6: along every sequence of public `Path` operations from a fresh
path, at most one step is open at any point, and `step(name, info)` first
closes the open step (setting its `endedAt`, leaving `ok` untouched) and
then appends a new open step. -/
theorem claim6_step_log_invariant (ops : List PathOp) (t : Nat) (n : String)
    (i : Option Info) :
    openCount (applyOps ops freshPath).process.steps ≤ 1 ∧
    (Path.step t n i (applyOps ops freshPath)).process.steps.map Step.name =
      (applyOps ops freshPath).process.steps.map Step.name ++ [n] ∧
    (Path.step t n i (applyOps ops freshPath)).process.steps.map Step.ok =
      (applyOps ops freshPath).process.steps.map Step.ok ++ [none] ∧
    stepsClosed (Path.step t n i (applyOps ops freshPath)).process.steps = true ∧
    (Path.step t n i (applyOps ops freshPath)).process.steps.getLast? =
      some { name := n, startedAt := t, endedAt := none, ok := none, info := i } := by
  have hp : stepsClosed (applyOps ops freshPath).process.steps = true :=
    stepsClosed_applyOps ops freshPath rfl
  have hmaps := closeOpenStep_none_maps t (Path.ensureRunning t (applyOps ops freshPath))
  have hers := Path.ensureRunning_steps t (applyOps ops freshPath)
  refine ⟨openCount_le_one _ hp, ?_, ?_, ?_, ?_⟩
  · rw [Path.step_steps, List.map_append, hmaps.1, hers]
    rfl
  · rw [Path.step_steps, List.map_append, hmaps.2, hers]
    rfl
  · exact stepsClosed_applyOp (applyOps ops freshPath) (.step t n i) hp
  · rw [Path.step_steps, List.getLast?_concat]

/-- C7: after `done()` on any reachable path, the status is `done`,
`endedAt` is set to the call time, every step is closed, and a step that
was open before the call is closed with `ok = true`. -/
theorem claim7_done_closes (ops : List PathOp) (t : Nat) :
    (Path.done t (applyOps ops freshPath)).process.status = .done ∧
    (Path.done t (applyOps ops freshPath)).process.endedAt = some t ∧
    ((Path.done t (applyOps ops freshPath)).process.steps.all
      fun s => s.endedAt.isSome) = true ∧
    (∀ s, (applyOps ops freshPath).process.steps.getLast? = some s → s.endedAt = none →
      (Path.done t (applyOps ops freshPath)).process.steps.getLast? =
        some { s with endedAt := some t, ok := some true }) := by
  have hp : stepsClosed (applyOps ops freshPath).process.steps = true :=
    stepsClosed_applyOps ops freshPath rfl
  refine ⟨Path.done_status t _, Path.done_endedAt t _, ?_, ?_⟩
  · unfold Path.done
    exact closeOpenStep_allClosed t (some true) none _ hp
  · intro s hs ho
    unfold Path.done
    rw [Path.closeOpenStep_of_last_open t (some true) none
      (Path.setStatusEnded .done t (applyOps ops freshPath)) s hs ho]
    simp [Path.closeStep, List.getLast?_concat]

/-- Witness for C7 at a path with one open step. -/
theorem claim7_done_closes_witness :
    (Path.done 5 (applyOps [PathOp.step 1 "a" none] freshPath)).process.steps.getLast? =
      some { name := "a", startedAt := 1, endedAt := some 5, ok := some true,
             info := none } := by
  have h := (claim7_done_closes [PathOp.step 1 "a" none] 5).2.2.2
    { name := "a", startedAt := 1 } rfl rfl
  simpa using h

/-- C8: after `error(info)` with a supplied info map, the status is
`error`, `endedAt` is set, the previously open step (if any) is closed
with `ok = false`, and the last step is a closed step named `error`
carrying exactly the supplied info. -/
theorem claim8_error_records (ops : List PathOp) (t : Nat) (i : Info) :
    (Path.error t (some i) (applyOps ops freshPath)).process.status = .error ∧
    (Path.error t (some i) (applyOps ops freshPath)).process.endedAt = some t ∧
    (Path.error t (some i) (applyOps ops freshPath)).process.steps.getLast? =
      some { name := "error", startedAt := t, endedAt := some t, ok := some false,
             info := some i } ∧
    ((Path.error t (some i) (applyOps ops freshPath)).process.steps.all
      fun s => s.endedAt.isSome) = true ∧
    (∀ s, (applyOps ops freshPath).process.steps.getLast? = some s → s.endedAt = none →
      (Path.error t (some i) (applyOps ops freshPath)).process.steps.dropLast.getLast? =
        some { s with endedAt := some t, ok := some false }) := by
  have hp : stepsClosed (applyOps ops freshPath).process.steps = true :=
    stepsClosed_applyOps ops freshPath rfl
  have hP2s : (Path.closeOpenStep t (some false) none
      (Path.setStatusEnded .error t (applyOps ops freshPath))).process.status = .error := by
    rw [Path.closeOpenStep_status]
    rfl
  have hall : ((Path.closeOpenStep t (some false) none
      (Path.setStatusEnded .error t (applyOps ops freshPath))).process.steps.all
      fun s => s.endedAt.isSome) = true :=
    closeOpenStep_allClosed t (some false) none _ hp
  have h3 : Path.ensureRunning t (Path.closeOpenStep t (some false) none
        (Path.setStatusEnded .error t (applyOps ops freshPath))) =
      Path.closeOpenStep t (some false) none
        (Path.setStatusEnded .error t (applyOps ops freshPath)) :=
    Path.ensureRunning_of_terminal t _ (Or.inr hP2s)
  have h4 : Path.closeOpenStep t none none (Path.closeOpenStep t (some false) none
        (Path.setStatusEnded .error t (applyOps ops freshPath))) =
      Path.closeOpenStep t (some false) none
        (Path.setStatusEnded .error t (applyOps ops freshPath)) :=
    Path.closeOpenStep_of_allClosed t none none _ hall
  -- the `error` step pushed by `step("error", info)` and then closed by
  -- `endStep(false)`
  have hq : (Path.error t (some i) (applyOps ops freshPath)).process.steps =
      (Path.closeOpenStep t (some false) none
        (Path.setStatusEnded .error t (applyOps ops freshPath))).process.steps ++
      [{ name := "error", startedAt := t, endedAt := some t, ok := some false,
         info := some i }] := by
    unfold Path.error
    dsimp only
    unfold Path.endStep Path.step
    rw [h3, h4]
    have h5 : (Path.pushStep "error" t (some i) (Path.closeOpenStep t (some false) none
        (Path.setStatusEnded .error t (applyOps ops freshPath)))).process.steps.getLast? =
        some { name := "error", startedAt := t, endedAt := none, ok := none,
               info := some i } := by
      simp [Path.pushStep, List.getLast?_concat]
    rw [Path.closeOpenStep_of_last_open t (some false) none _ _ h5 rfl]
    simp [Path.pushStep, Path.closeStep, List.dropLast_concat]
  refine ⟨Path.error_status t (some i) _, Path.error_endedAt t (some i) _, ?_, ?_, ?_⟩
  · rw [hq, List.getLast?_concat]
  · rw [hq, List.all_append]
    simp [hall]
  · intro s hs ho
    rw [hq, List.dropLast_concat]
    rw [Path.closeOpenStep_of_last_open t (some false) none
      (Path.setStatusEnded .error t (applyOps ops freshPath)) s hs ho]
    simp [Path.closeStep, List.getLast?_concat]

/-- Witness for C8 at a path with one open step and info `{code: "X"}`. -/
theorem claim8_error_records_witness :
    (Path.error 7 (some [("code", IVal.str "X")])
        (applyOps [PathOp.step 1 "w" none] freshPath)).process.steps.getLast? =
      some { name := "error", startedAt := 7, endedAt := some 7, ok := some false,
             info := some [("code", IVal.str "X")] } ∧
    (Path.error 7 (some [("code", IVal.str "X")])
        (applyOps [PathOp.step 1 "w" none] freshPath)).process.steps.dropLast.getLast? =
      some { name := "w", startedAt := 1, endedAt := some 7, ok := some false,
             info := none } := by
  have h := claim8_error_records [PathOp.step 1 "w" none] 7 [("code", IVal.str "X")]
  refine ⟨h.2.2.1, ?_⟩
  have h5 := h.2.2.2.2 { name := "w", startedAt := 1 } rfl rfl
  simpa using h5

/-- Witness for C5 (amended) at a concrete terminal path. -/
theorem claim5_terminal_amended_witness :
    (Path.start 9 (Path.done 3 freshPath)).process.status =
      (Path.done 3 freshPath).process.status ∧
    (Path.done 9 (Path.done 3 freshPath)).process.status =
      (Path.done 3 freshPath).process.status := by
  have h := claim5_terminal_amended (Path.done 3 freshPath) 9 "n" none none none true
    (Or.inl rfl)
  exact ⟨h.1, h.2.2.2.2.1 rfl⟩

/-! ## Nodes and the conversation graph (models/Node.ts, graph/conversation.ts) -/

/-- `NodeType` from models/Node.ts. -/
inductive NodeType where
  | system
  | user
deriving Repr, DecidableEq

/-- `NodeStatus` from models/Node.ts. -/
inductive NodeStatus where
  | notStarted
  | processing
  | ready
  | error
deriving Repr, DecidableEq

/-- `Content` from models/Node.ts. -/
structure Content where
  message : String
  options : Option (List String) := none
  timestamp : Option Nat := none
deriving Repr, DecidableEq

/-- The `Node` class.  The UUID `id` is modelled by a counter value handed
out by the owning `Conversation`; `previous`/`next` object references
become ids into the conversation's node store. -/
structure Node where
  id : Nat
  type : NodeType
  status : NodeStatus
  content : Option Content := none
  createdAt : Nat
  next : Option Nat := none
  previous : Option Nat := none
deriving Repr, DecidableEq

/-- `Node.setContent(message, options?)`: store content with the current
time and mark READY unconditionally. -/
def setContent (t : Nat) (message : String) (options : Option (List String))
    (n : Node) : Node :=
  { n with content := some { message := message, options := options, timestamp := some t },
           status := .ready }

/-- The transient `Pair` view `{user, system, path}`: node ids plus the
index of the turn in the conversation's `paths` array. -/
structure Pair where
  userId : Nat
  systemId : Nat
  pathIdx : Nat
deriving Repr, DecidableEq

/-- The `Conversation` class.  `nodes` is the arena that owns the node
objects; JS object mutation becomes in-place update by id.  The `byId`
map is not materialised: `track()` is its only writer and keeps it equal
to an id-indexed view of `nodes`, so lookups go through `findNode`. -/
structure Conversation where
  nextId : Nat := 0
  head : Option Nat := none
  tail : Option Nat := none
  nodes : List Node := []
  paths : List Path := []
deriving Repr, DecidableEq

/-- Mutate the (unique) node with the given id, as JS mutates the object
in place. -/
def updNodes (i : Nat) (f : Node → Node) (ns : List Node) : List Node :=
  ns.map (fun n => if n.id = i then f n else n)

/-- In-place update of a list element by position (the JS `Pair` keeps an
object reference to its path; we keep its index in `paths`). -/
def updAt {α : Type} (i : Nat) (f : α → α) : List α → List α
  | [] => []
  | x :: xs =>
    match i with
    | 0 => f x :: xs
    | j + 1 => x :: updAt j f xs

namespace Conversation

/-- `new Conversation()`. -/
def empty : Conversation := {}

/-- `byId.get(id)` / `nodes.find(n => n.id === id)`. -/
def findNode (c : Conversation) (i : Nat) : Option Node :=
  c.nodes.find? (fun n => n.id == i)

def updNode (c : Conversation) (i : Nat) (f : Node → Node) : Conversation :=
  { c with nodes := updNodes i f c.nodes }

def updPath (c : Conversation) (i : Nat) (f : Path → Path) : Conversation :=
  { c with paths := updAt i f c.paths }

/-- `Conversation.system(message?)`: append a SYSTEM node; if a tail
exists, `link(tail, sys, "system-link")` (which `start()`s the new path);
`if (message) sys.setContent(message)` (empty string is falsy in JS).
Returns the new node's id. -/
def system (t : Nat) (message : Option String) (c : Conversation) :
    Conversation × Nat :=
  let sysId := c.nextId
  let nodes1 := match c.tail with
    | some tl => updNodes tl (fun n => { n with next := some sysId }) c.nodes
    | none => c.nodes
  let paths1 := match c.tail with
    | some tl => c.paths ++
        [Path.start t (Path.mk' (some tl) (some sysId) (some "system-link"))]
    | none => c.paths
  let sys : Node :=
    { id := sysId, type := .system, status := .notStarted, createdAt := t,
      previous := c.tail }
  let sys2 := match message with
    | some m => if m = "" then sys else setContent t m none sys
    | none => sys
  ({ c with
     nextId := sysId + 1,
     head := (match c.head with | some h => some h | none => some sysId),
     tail := some sysId,
     nodes := nodes1 ++ [sys2],
     paths := paths1 }, sysId)

end Conversation

/-- The USER node as `user()` builds it: constructed PROCESSING, content
set immediately (hence READY), `next` pointing at its paired placeholder. -/
def mkUserNode (t : Nat) (m : String) (o : Option (List String)) (uId sId : Nat)
    (prev : Option Nat) : Node :=
  let u : Node := setContent t m o
    { id := uId, type := .user, status := .processing, createdAt := t, previous := prev }
  { u with next := some sId }

/-- The paired SYSTEM placeholder as `user()` builds it. -/
def mkSysNode (t : Nat) (sId uId : Nat) : Node :=
  { id := sId, type := .system, status := .notStarted, createdAt := t,
    previous := some uId }

namespace Conversation

/-- `Conversation.user(message, options?)`: append a USER node with
content set immediately, `link` from the old tail when one exists
("user-link"), then append a paired SYSTEM placeholder linked from the
user node ("assistant-reply", `start()`ed so callers see `queued`). -/
def user (t : Nat) (message : String) (options : Option (List String))
    (c : Conversation) : Conversation × Pair :=
  let uId := c.nextId
  let sId := c.nextId + 1
  let nodes1 := match c.tail with
    | some tl => updNodes tl (fun n => { n with next := some uId }) c.nodes
    | none => c.nodes
  let paths1 := match c.tail with
    | some tl => c.paths ++
        [Path.start t (Path.mk' (some tl) (some uId) (some "user-link"))]
    | none => c.paths
  let paths2 := paths1 ++
    [Path.start t (Path.mk' (some uId) (some sId) (some "assistant-reply"))]
  ({ c with
     nextId := sId + 1,
     head := (match c.head with | some h => some h | none => some uId),
     tail := some sId,
     nodes := nodes1 ++ [mkUserNode t message options uId sId c.tail, mkSysNode t sId uId],
     paths := paths2 },
   { userId := uId, systemId := sId, pathIdx := paths2.length - 1 })

/-- `Conversation.beginAssistantWork(pair, stepInfo?)`. -/
def beginAssistantWork (t : Nat) (c : Conversation) (pr : Pair)
    (stepInfo : Option Info) : Conversation :=
  c.updPath pr.pathIdx (Path.step t "work:begin" stepInfo)

/-- `Conversation.resolveAssistant(pair, reply, info?)`. -/
def resolveAssistant (t : Nat) (c : Conversation) (pr : Pair) (reply : String)
    (info : Option Info) : Conversation :=
  let c1 := c.updNode pr.systemId (setContent t reply none)
  let c2 := match info with
    | some iv => c1.updPath pr.pathIdx (Path.endStep t true (some iv))
    | none => c1
  c2.updPath pr.pathIdx (Path.done t)

/-- `Conversation.failAssistant(pair, errorInfo?)`: force ERROR status,
install a placeholder message when the responder has no content (re-forcing
ERROR because `setContent` marks READY), and fail the path.  (When the id
is absent from the store — impossible for pairs produced by `user()` — the
JS code would fault; the model leaves the state unchanged.) -/
def failAssistant (t : Nat) (c : Conversation) (pr : Pair)
    (errorInfo : Option Info) : Conversation :=
  let c1 := c.updNode pr.systemId (fun n => { n with status := .error })
  let c2 := match c1.findNode pr.systemId with
    | some n =>
      if n.content.isNone then
        (c1.updNode pr.systemId (setContent t "An error occurred." none)).updNode
          pr.systemId (fun n => { n with status := .error })
      else c1
    | none => c1
  c2.updPath pr.pathIdx (Path.error t errorInfo)

/-- `Conversation.lastPair()`: resolve the most recent path's endpoints in
the id index; no role or label check. -/
def lastPair (c : Conversation) : Option Pair :=
  match c.paths.getLast? with
  | none => none
  | some p =>
    match p.fromId, p.toId with
    | some f, some tl =>
      match c.findNode f, c.findNode tl with
      | some _, some _ =>
        some { userId := f, systemId := tl, pathIdx := c.paths.length - 1 }
      | _, _ => none
    | _, _ => none

end Conversation

/-- The outcome of the awaited callback `fn(pair)` inside `userAsync`:
it resolves with a plain string, resolves with `{reply, info?}`, or
throws/rejects (`<stringified error>` = `String(err?.message ?? err)`). -/
inductive AsyncOutcome where
  | reply (s : String)
  | replyInfo (r : String) (info : Option Info)
  | thrown (message : String)
deriving Repr, DecidableEq

namespace Conversation

/-- `Conversation.userAsync(message, fn, options?)`: pair + `work:begin`
step, then resolve or — when the callback throws — `failAssistant` with
`{error: <stringified error>}`.  Both branches return the pair: the
function never re-throws. -/
def userAsync (t : Nat) (message : String) (out : AsyncOutcome)
    (options : Option (List String)) (c : Conversation) : Conversation × Pair :=
  let res := user t message options c
  let c2 := beginAssistantWork t res.1 res.2 none
  match out with
  | .reply s => (resolveAssistant t c2 res.2 s none, res.2)
  | .replyInfo r iv => (resolveAssistant t c2 res.2 r iv, res.2)
  | .thrown e => (failAssistant t c2 res.2 (some [("error", IVal.str e)]), res.2)

end Conversation

/-- `chain()` unrolled: follow `next` ids from an explicit start.  The JS
generator walks `next` pointers; every reachable graph is acyclic with at
most `nodes.length` chain members, so that fuel suffices. -/
def chainAux (c : Conversation) : Nat → Option Nat → List Node
  | _, none => []
  | 0, some _ => []
  | Nat.succ fuel, some i =>
    match c.findNode i with
    | none => []
    | some n => n :: chainAux c fuel n.next

/-- `Conversation.chain()`: nodes in head-to-tail order. -/
def Conversation.chain (c : Conversation) : List Node :=
  chainAux c c.nodes.length c.head

/-- The renderable signature of a node: its role and message. -/
def nodeSig (n : Node) : NodeType × Option String := (n.type, n.content.map (·.message))

/-- Roles and messages of all nodes in insertion order. -/
def Conversation.nodesSig (c : Conversation) : List (NodeType × Option String) :=
  c.nodes.map nodeSig

/-- Roles and messages along the `chain()` traversal. -/
def Conversation.chainSig (c : Conversation) : List (NodeType × Option String) :=
  c.chain.map nodeSig

/-- A sequence of `user()` calls (message, options, call time). -/
def applyUsers (calls : List (String × Option (List String) × Nat))
    (c : Conversation) : Conversation :=
  match calls with
  | [] => c
  | (m, o, t) :: rest => applyUsers rest (Conversation.user t m o c).1

/-- Effect of one `user()` call on the node/path counts. -/
theorem user_counts (t : Nat) (m : String) (o : Option (List String)) (c : Conversation) :
    (Conversation.user t m o c).1.nodes.length = c.nodes.length + 2 ∧
    (Conversation.user t m o c).1.paths.length =
      c.paths.length + (if c.tail.isSome then 2 else 1) ∧
    (Conversation.user t m o c).1.tail = some (c.nextId + 1) := by
  cases htl : c.tail <;> simp [Conversation.user, updNodes, htl]

theorem applyUsers_counts (calls : List (String × Option (List String) × Nat))
    (c : Conversation) (h : c.tail.isSome) :
    (applyUsers calls c).nodes.length = c.nodes.length + 2 * calls.length ∧
    (applyUsers calls c).paths.length = c.paths.length + 2 * calls.length := by
  induction calls generalizing c with
  | nil => simp [applyUsers]
  | cons hd rest ih =>
    obtain ⟨m, o, t⟩ := hd
    have hu := user_counts t m o c
    have htl : (Conversation.user t m o c).1.tail.isSome := by rw [hu.2.2]; rfl
    have := ih (Conversation.user t m o c).1 htl
    rw [show applyUsers ((m, o, t) :: rest) c = applyUsers rest (Conversation.user t m o c).1
      from rfl]
    constructor
    · rw [this.1, hu.1]
      simp only [List.length_cons]
      ring
    · rw [this.2, hu.2.1]
      rw [if_pos h]
      simp only [List.length_cons]
      ring

/-- C3: after `n ≥ 1` `user()` calls on a fresh conversation,
`nodes.length = 2n` and `paths.length = 2n - 1`. -/
theorem claim3_user_call_counts (calls : List (String × Option (List String) × Nat))
    (h : 1 ≤ calls.length) :
    (applyUsers calls Conversation.empty).nodes.length = 2 * calls.length ∧
    (applyUsers calls Conversation.empty).paths.length = 2 * calls.length - 1 := by
  cases calls with
  | nil => simp at h
  | cons hd rest =>
    obtain ⟨m, o, t⟩ := hd
    have hu := user_counts t m o Conversation.empty
    have htl : (Conversation.user t m o Conversation.empty).1.tail.isSome := by
      rw [hu.2.2]; rfl
    have hrest := applyUsers_counts rest (Conversation.user t m o Conversation.empty).1 htl
    rw [show applyUsers ((m, o, t) :: rest) Conversation.empty =
      applyUsers rest (Conversation.user t m o Conversation.empty).1 from rfl]
    have h1 : (Conversation.user t m o Conversation.empty).1.nodes.length = 2 := by
      rw [hu.1]; rfl
    have h2 : (Conversation.user t m o Conversation.empty).1.paths.length = 1 := by
      rw [hu.2.1]; rfl
    constructor
    · rw [hrest.1, h1]
      simp
      ring
    · rw [hrest.2, h2]
      simp
      omega

/-- Witness for C3 with two concrete `user()` calls. -/
theorem claim3_user_call_counts_witness :
    (applyUsers [("hi", none, 0), ("there", none, 1)] Conversation.empty).nodes.length =
      2 * 2 ∧
    (applyUsers [("hi", none, 0), ("there", none, 1)] Conversation.empty).paths.length =
      2 * 2 - 1 :=
  claim3_user_call_counts [("hi", none, 0), ("there", none, 1)] (by decide)

/-- C10: `lastPair()` resolves the most recent path's endpoints without
checking roles or labels: after two consecutive `system()` calls the last
path is the `system-link` turn, so the returned pair's `user` field holds
the SYSTEM-typed first node. -/
theorem claim10_lastPair_system_link (t1 t2 : Nat) :
    ((Conversation.system t2 (some "B")
        (Conversation.system t1 (some "A") Conversation.empty).1).1.lastPair) =
      some { userId := 0, systemId := 1, pathIdx := 0 } ∧
    (((Conversation.system t2 (some "B")
        (Conversation.system t1 (some "A") Conversation.empty).1).1.findNode 0).map
      Node.type) = some NodeType.system ∧
    (((Conversation.system t2 (some "B")
        (Conversation.system t1 (some "A") Conversation.empty).1).1.paths.getLast?).map
      (fun p => p.process.label)) = some (some "system-link") := by
  refine ⟨rfl, rfl, rfl⟩

/-! ## List-surgery lemmas for the node arena -/

theorem updNodes_append (i : Nat) (f : Node → Node) (ns ms : List Node) :
    updNodes i f (ns ++ ms) = updNodes i f ns ++ updNodes i f ms := by
  simp [updNodes]

theorem updNodes_of_not_mem (i : Nat) (f : Node → Node) (ns : List Node)
    (h : ∀ n ∈ ns, n.id ≠ i) : updNodes i f ns = ns := by
  induction ns with
  | nil => rfl
  | cons a l ih =>
    have ha : ¬(a.id = i) := h a (List.mem_cons_self a l)
    have ih' := ih (fun n hn => h n (List.mem_cons_of_mem a hn))
    simp only [updNodes, List.map_cons, if_neg ha]
    rw [show l.map (fun n => if n.id = i then f n else n) = updNodes i f l from rfl, ih']

theorem ids_lt_updNodes (i : Nat) (f : Node → Node) (ns : List Node) (k : Nat)
    (hf : ∀ n, (f n).id = n.id) (h : ∀ n ∈ ns, n.id < k) :
    ∀ n ∈ updNodes i f ns, n.id < k := by
  intro n hn
  rcases List.mem_map.mp hn with ⟨a, ha, rfl⟩
  by_cases hc : a.id = i
  · rw [if_pos hc, hf]
    exact h a ha
  · rw [if_neg hc]
    exact h a ha

theorem find?_eq_none_of_ids (i : Nat) (ns : List Node) (h : ∀ n ∈ ns, n.id ≠ i) :
    ns.find? (fun n => n.id == i) = none := by
  rw [List.find?_eq_none]
  intro n hn
  simpa using h n hn

theorem find?_append_none {α : Type} (p : α → Bool) (l1 l2 : List α)
    (h : l1.find? p = none) : (l1 ++ l2).find? p = l2.find? p := by
  induction l1 with
  | nil => rfl
  | cons a l ih =>
    cases hpa : p a with
    | false =>
      rw [List.find?_cons_of_neg _ (by simp [hpa])] at h
      rw [List.cons_append, List.find?_cons_of_neg _ (by simp [hpa])]
      exact ih h
    | true =>
      rw [List.find?_cons_of_pos _ hpa] at h
      cases h

theorem findNode_append_last2 (ns : List Node) (a b : Node) (i : Nat)
    (hns : ∀ n ∈ ns, n.id ≠ i) (ha : a.id ≠ i) (hb : b.id = i) :
    (ns ++ [a, b]).find? (fun n => n.id == i) = some b := by
  rw [find?_append_none _ ns _ (find?_eq_none_of_ids i ns hns)]
  rw [List.find?_cons_of_neg _ (by simp [ha])]
  rw [List.find?_cons_of_pos _ (by simp [hb])]

theorem updAt_append_length {α : Type} (l : List α) (x : α) (f : α → α) :
    updAt l.length f (l ++ [x]) = l ++ [f x] := by
  induction l with
  | nil => rfl
  | cons a l ih =>
    show a :: updAt l.length f (l ++ [x]) = a :: (l ++ [f x])
    rw [ih]

/-! ## Shape of a fresh pair produced by `user()` -/

theorem user_paths (t : Nat) (m : String) (o : Option (List String)) (c : Conversation) :
    (Conversation.user t m o c).1.paths =
      (match c.tail with
       | some tl => c.paths ++
           [Path.start t (Path.mk' (some tl) (some c.nextId) (some "user-link"))]
       | none => c.paths) ++
      [Path.start t (Path.mk' (some c.nextId) (some (c.nextId + 1))
        (some "assistant-reply"))] := by
  cases htl : c.tail <;> simp [Conversation.user, htl]

theorem user_nodes (t : Nat) (m : String) (o : Option (List String)) (c : Conversation) :
    (Conversation.user t m o c).1.nodes =
      (match c.tail with
       | some tl => updNodes tl (fun n => { n with next := some c.nextId }) c.nodes
       | none => c.nodes) ++
      [mkUserNode t m o c.nextId (c.nextId + 1) c.tail,
       mkSysNode t (c.nextId + 1) c.nextId] := by
  cases htl : c.tail <;> simp [Conversation.user, htl]

theorem user_pair (t : Nat) (m : String) (o : Option (List String)) (c : Conversation) :
    (Conversation.user t m o c).2 =
      { userId := c.nextId, systemId := c.nextId + 1,
        pathIdx := (match c.tail with
                    | some _ => c.paths.length + 1
                    | none => c.paths.length) } := by
  cases htl : c.tail <;> simp [Conversation.user, htl]

/-- When the responder node (looked up after the first status write) has
no content, `failAssistant` takes its placeholder branch: the whole call
is the three by-id node updates followed by failing the path. -/
theorem failAssistant_spec (t : Nat) (info : Option Info) (c : Conversation) (pr : Pair)
    (S' : Node)
    (hfind : (c.updNode pr.systemId
        (fun n => { n with status := NodeStatus.error })).findNode pr.systemId = some S')
    (hcont : S'.content = none) :
    Conversation.failAssistant t c pr info =
      (((c.updNode pr.systemId (fun n => { n with status := NodeStatus.error })).updNode
          pr.systemId (setContent t "An error occurred." none)).updNode pr.systemId
            (fun n => { n with status := NodeStatus.error })).updPath pr.pathIdx
        (Path.error t info) := by
  simp only [Conversation.failAssistant]
  rw [hfind]
  simp [hcont]

/-- Effect of `beginAssistantWork` + `failAssistant` on a conversation
shaped like the result of a `user()` call: the fresh placeholder gets the
default message and ERROR status, and the pair's path is failed. -/
theorem failAssistant_after_user (t : Nat) (info : Option Info) (c1 : Conversation)
    (N : List Node) (P : List Path) (U S : Node) (a0 : Path) (uId sId PIdx : Nat)
    (hnodes : c1.nodes = N ++ [U, S])
    (hpaths : c1.paths = P ++ [a0])
    (hP : P.length = PIdx)
    (hUid : U.id = uId) (hSid : S.id = sId) (hUS : U.id ≠ S.id)
    (hNfresh : ∀ n ∈ N, n.id ≠ sId)
    (hScont : S.content = none) :
    (Conversation.failAssistant t
        (Conversation.beginAssistantWork t c1 ⟨uId, sId, PIdx⟩ none)
        ⟨uId, sId, PIdx⟩ info).paths =
      P ++ [Path.error t info (Path.step t "work:begin" none a0)] ∧
    (Conversation.failAssistant t
        (Conversation.beginAssistantWork t c1 ⟨uId, sId, PIdx⟩ none)
        ⟨uId, sId, PIdx⟩ info).findNode sId =
      some { (setContent t "An error occurred." none
              { S with status := NodeStatus.error }) with status := NodeStatus.error } := by
  subst hP hUid hSid
  have hc2paths : (Conversation.beginAssistantWork t c1 ⟨U.id, S.id, P.length⟩ none).paths =
      P ++ [Path.step t "work:begin" none a0] := by
    show updAt P.length (Path.step t "work:begin" none) c1.paths = _
    rw [hpaths, updAt_append_length]
  have hc2nodes : (Conversation.beginAssistantWork t c1 ⟨U.id, S.id, P.length⟩ none).nodes =
      N ++ [U, S] := hnodes
  have hupd : ∀ (f : Node → Node) (S' : Node), S'.id = S.id →
      updNodes S.id f (N ++ [U, S']) = N ++ [U, f S'] := by
    intro f S' hS'
    rw [show N ++ [U, S'] = N ++ ([U] ++ [S']) from by simp, updNodes_append, updNodes_append]
    rw [updNodes_of_not_mem _ _ N hNfresh]
    simp [updNodes, hUS, hS']
  have hfind : ∀ S' : Node, S'.id = S.id →
      (N ++ [U, S']).find? (fun n => n.id == S.id) = some S' := by
    intro S' hS'
    exact findNode_append_last2 N U S' S.id hNfresh hUS hS'
  have hn1 : ((Conversation.beginAssistantWork t c1 ⟨U.id, S.id, P.length⟩ none).updNode
      S.id (fun n => { n with status := NodeStatus.error })).nodes =
      N ++ [U, { S with status := NodeStatus.error }] := by
    show updNodes S.id _ (Conversation.beginAssistantWork t c1 ⟨U.id, S.id, P.length⟩
      none).nodes = _
    rw [hc2nodes, hupd _ S rfl]
  have hfind1 : ((Conversation.beginAssistantWork t c1 ⟨U.id, S.id, P.length⟩ none).updNode
      S.id (fun n => { n with status := NodeStatus.error })).findNode S.id =
      some { S with status := NodeStatus.error } := by
    show List.find? _ _ = _
    rw [show ((Conversation.beginAssistantWork t c1 ⟨U.id, S.id, P.length⟩ none).updNode
      S.id (fun n => { n with status := NodeStatus.error })).nodes =
      N ++ [U, { S with status := NodeStatus.error }] from hn1]
    exact hfind _ rfl
  have hspec := failAssistant_spec t info
    (Conversation.beginAssistantWork t c1 ⟨U.id, S.id, P.length⟩ none)
    ⟨U.id, S.id, P.length⟩ { S with status := NodeStatus.error } hfind1 hScont
  rw [hspec]
  constructor
  · show updAt P.length (Path.error t info)
      (Conversation.beginAssistantWork t c1 ⟨U.id, S.id, P.length⟩ none).paths = _
    rw [hc2paths, updAt_append_length]
  · show List.find? (fun n => n.id == S.id)
      (updNodes S.id (fun n => { n with status := NodeStatus.error })
        (updNodes S.id (setContent t "An error occurred." none)
          (((Conversation.beginAssistantWork t c1 ⟨U.id, S.id, P.length⟩ none).updNode
            S.id (fun n => { n with status := NodeStatus.error })).nodes))) = _
    rw [hn1]
    rw [hupd (setContent t "An error occurred." none)
      { S with status := NodeStatus.error } rfl]
    rw [hupd (fun n => { n with status := NodeStatus.error })
      (setContent t "An error occurred." none { S with status := NodeStatus.error }) rfl]
    exact hfind _ rfl

/-- C9: when the awaited callback of `userAsync` throws, the call does
not re-throw: it resolves with the pair, whose turn is failed with an
`error` step `{error: <stringified error>}` and whose responder node is
in ERROR status with the default placeholder message. -/
theorem claim9_userAsync_swallows_errors (c : Conversation) (t : Nat) (m e : String)
    (opts : Option (List String)) (h : ∀ n ∈ c.nodes, n.id < c.nextId) :
    ∃ c' pr, Conversation.userAsync t m (.thrown e) opts c = (c', pr) ∧
      (c'.paths[pr.pathIdx]?).map (fun p => p.process.status) =
        some ProcessStatus.error ∧
      (c'.findNode pr.systemId).map Node.status = some NodeStatus.error ∧
      (c'.findNode pr.systemId).map (fun n => n.content.map (fun ct => ct.message)) =
        some (some "An error occurred.") ∧
      (c'.paths[pr.pathIdx]?).map (fun p => p.process.steps.getLast?) =
        some (some { name := "error", startedAt := t, endedAt := some t, ok := some false,
                     info := some [("error", IVal.str e)] }) := by
  have hP : (match c.tail with
      | some tl => c.paths ++
          [Path.start t (Path.mk' (some tl) (some c.nextId) (some "user-link"))]
      | none => c.paths).length =
      (match c.tail with
       | some _ => c.paths.length + 1
       | none => c.paths.length) := by
    cases c.tail <;> simp
  have hconj := failAssistant_after_user t (some [("error", IVal.str e)])
    (Conversation.user t m opts c).1
    (match c.tail with
     | some tl => updNodes tl (fun n => { n with next := some c.nextId }) c.nodes
     | none => c.nodes)
    (match c.tail with
     | some tl => c.paths ++
         [Path.start t (Path.mk' (some tl) (some c.nextId) (some "user-link"))]
     | none => c.paths)
    (mkUserNode t m opts c.nextId (c.nextId + 1) c.tail)
    (mkSysNode t (c.nextId + 1) c.nextId)
    (Path.start t (Path.mk' (some c.nextId) (some (c.nextId + 1))
      (some "assistant-reply")))
    c.nextId (c.nextId + 1)
    (match c.tail with
     | some _ => c.paths.length + 1
     | none => c.paths.length)
    (user_nodes t m opts c) (user_paths t m opts c)
    hP
    rfl rfl
    (by show c.nextId ≠ c.nextId + 1; omega)
    (by
      cases htl : c.tail with
      | none =>
        intro n hn
        have := h n hn
        omega
      | some tl =>
        intro n hn
        have := ids_lt_updNodes tl (fun n => { n with next := some c.nextId })
          c.nodes c.nextId (fun n => rfl) h n hn
        omega)
    rfl
  refine ⟨_, _, rfl, ?_, ?_, ?_, ?_⟩ <;>
    rw [user_pair t m opts c] <;> dsimp only
  · rw [hconj.1, ← hP, List.getElem?_concat_length]
    simp [Path.error_status]
  · rw [hconj.2]
    rfl
  · rw [hconj.2]
    rfl
  · rw [hconj.1, ← hP, List.getElem?_concat_length]
    rfl

/-! ## Persisted formats and reconstruction
(models/Path.ts `rebuildConversationFromTranscript` / `dumpTranscript`,
sdk/rebuild.ts `rebuildConversationFromShape`).
All `Date.now()` reads during one (synchronous) rebuild are modelled by a
single wall-clock argument `tNow`. -/

/-- A transcript row (`_Row`): each side an optional `[text, timestampMs]`
tuple.  Under the typed model `hasUser`/`hasSystem`
(`Array.isArray(r.user) && typeof r.user[0] === "string"`) is exactly
presence of the field. -/
structure TRow where
  user : Option (String × Nat) := none
  system : Option (String × Nat) := none
deriving Repr, DecidableEq

/-- `Msg` from sdk/rebuild.ts. -/
structure Msg where
  message : String
  options : Option (List String) := none
  timestamp : Option Nat := none
deriving Repr, DecidableEq

/-- The `status` field of a shape row. -/
inductive RowStatus where
  | queued
  | running
  | done
  | error
deriving Repr, DecidableEq

/-- The string the source stores in step info for a row status. -/
def RowStatus.str : RowStatus → String
  | .queued => "queued"
  | .running => "running"
  | .done => "done"
  | .error => "error"

/-- `Row` from sdk/rebuild.ts. -/
structure Row where
  user : Option Msg := none
  system : Option Msg := none
  status : Option RowStatus := none
deriving Repr, DecidableEq

/-- JS truthiness of an optional numeric timestamp (`0` is falsy). -/
def truthyNat (o : Option Nat) : Bool :=
  match o with
  | some n => n != 0
  | none => false

/-- `!!row.user?.message`: present with a non-empty message. -/
def hasMsg (m : Option Msg) : Bool :=
  match m with
  | some msg => msg.message != ""
  | none => false

/-- The `row.user!` non-null assertion after a `hasMsg` guard. -/
def msgOf (m : Option Msg) : Msg := m.getD { message := "" }

/-- `node.content.timestamp = ts` (guarded by `if (node.content)`). -/
def setCtTimestamp (ts : Nat) (n : Node) : Node :=
  match n.content with
  | some ct => { n with content := some { ct with timestamp := some ts } }
  | none => n

/-- Mutate the first list element satisfying `p` (JS
`steps.find(...)` followed by in-place mutation). -/
def updFirst (p : Step → Bool) (f : Step → Step) : List Step → List Step
  | [] => []
  | s :: rest => if p s then f s :: rest else s :: updFirst p f rest

/-- The mutation applied to the located `rebuild` step when a system-only
row finalizes a pending pair. -/
def closeRebuild (sTs : Nat) (extra : Info) (s : Step) : Step :=
  { s with startedAt := sTs, endedAt := some sTs, ok := some true,
           info := some (jsMerge (s.info.getD []) extra) }

/-- Locate the open `rebuild` step (else any `rebuild` step) and update
it in place; push a closed one only if none exists. -/
def updRebuildStep (sTs : Nat) (extra : Info) (p : Path) : Path :=
  if p.process.steps.any (fun s => s.name == "rebuild" && s.endedAt.isNone) then
    { p with process := { p.process with
        steps := updFirst (fun s => s.name == "rebuild" && s.endedAt.isNone)
          (closeRebuild sTs extra) p.process.steps } }
  else if p.process.steps.any (fun s => s.name == "rebuild") then
    { p with process := { p.process with
        steps := updFirst (fun s => s.name == "rebuild")
          (closeRebuild sTs extra) p.process.steps } }
  else
    { p with process := { p.process with
        steps := p.process.steps ++
          [{ name := "rebuild", startedAt := sTs, endedAt := some sTs, ok := some true,
             info := some extra }] } }

/-- `savedTail ?? fallback`. -/
def restoreTail (savedTail : Option Nat) (fallback : Nat) : Option Nat :=
  match savedTail with
  | some x => some x
  | none => some fallback

/-- Transcript rebuild, row with both sides: suppress cross-row linking
by clearing `tail` around `user()`, restore it, fill both contents with
the row timestamps, and finish the path (`startedAt = min(uTs, sTs)`,
`endedAt = sTs`, status done, one closed `rebuild` step). -/
def completeRowT (tNow i : Nat) (uText : String) (uTs : Nat) (sText : String)
    (sTs : Nat) (c : Conversation) : Conversation × Pair :=
  let savedTail := c.tail
  let res := Conversation.user tNow uText none { c with tail := none }
  let pair := res.2
  let c2 := res.1.updNode pair.userId (setCtTimestamp uTs)
  let c3 := { c2 with tail := restoreTail savedTail pair.systemId }
  let c4 := c3.updNode pair.systemId (setContent tNow sText none)
  let c5 := c4.updNode pair.systemId (setCtTimestamp sTs)
  let c6 := c5.updPath pair.pathIdx (fun p =>
    { p with process := { p.process with
        startedAt := some (min uTs sTs), endedAt := some sTs, status := .done,
        steps := p.process.steps ++
          [{ name := "rebuild", startedAt := uTs, endedAt := some sTs, ok := some true,
             info := some [("imported", IVal.bool true), ("index", IVal.nat i)] }] } })
  (c6, pair)

/-- Transcript rebuild, user-only row: pending pair, path left `queued`
with `startedAt = uTs` and one open `rebuild` step. -/
def userRowT (tNow i : Nat) (uText : String) (uTs : Nat) (c : Conversation) :
    Conversation × Pair :=
  let savedTail := c.tail
  let res := Conversation.user tNow uText none { c with tail := none }
  let pair := res.2
  let c2 := res.1.updNode pair.userId (setCtTimestamp uTs)
  let c3 := { c2 with tail := restoreTail savedTail pair.systemId }
  let c4 := c3.updPath pair.pathIdx (fun p =>
    { p with process := { p.process with
        startedAt := some uTs, status := .queued,
        steps := p.process.steps ++
          [{ name := "rebuild", startedAt := uTs,
             info := some [("imported", IVal.bool true), ("index", IVal.nat i)] }] } })
  (c4, pair)

/-- Transcript rebuild, system-only row with a pending pair: fill the
pending responder, set BOTH `startedAt` and `endedAt` to the system
timestamp, status done, and update the existing `rebuild` step. -/
def finalizePendingT (tNow i : Nat) (sText : String) (sTs : Nat) (c : Conversation)
    (lp : Pair) : Conversation :=
  let c1 := c.updNode lp.systemId (setContent tNow sText none)
  let c2 := c1.updNode lp.systemId (setCtTimestamp sTs)
  let c3 := c2.updPath lp.pathIdx (fun p =>
    { p with process := { p.process with
        startedAt := some sTs, endedAt := some sTs, status := .done } })
  c3.updPath lp.pathIdx
    (updRebuildStep sTs [("imported", IVal.bool true), ("index", IVal.nat i)])

/-- Transcript rebuild, standalone system row (no pending pair). -/
def sysRowT (tNow : Nat) (sText : String) (sTs : Nat) (c : Conversation) :
    Conversation :=
  let savedTail := c.tail
  let res := Conversation.system tNow (some sText) { c with tail := none }
  let c1 := { res.1 with tail := restoreTail savedTail res.2 }
  c1.updNode res.2 (setCtTimestamp sTs)

/-- The `_Rows.forEach` loop of `rebuildConversationFromTranscript`,
carrying the conversation, the remembered "last pending pair" and the
row index. -/
def rebuildTAux (tNow : Nat) (c : Conversation) (lp : Option Pair) (i : Nat) :
    List TRow → Conversation
  | [] => c
  | row :: rest =>
    match row.user, row.system with
    | some (uText, uTs), some (sText, sTs) =>
      let res := completeRowT tNow i uText uTs sText sTs c
      rebuildTAux tNow res.1 (some res.2) (i + 1) rest
    | some (uText, uTs), none =>
      let res := userRowT tNow i uText uTs c
      rebuildTAux tNow res.1 (some res.2) (i + 1) rest
    | none, some (sText, sTs) =>
      match lp with
      | some lpair =>
        rebuildTAux tNow (finalizePendingT tNow i sText sTs c lpair) lp (i + 1) rest
      | none =>
        rebuildTAux tNow (sysRowT tNow sText sTs c) lp (i + 1) rest
    | none, none => rebuildTAux tNow c lp (i + 1) rest

/-- `rebuildConversationFromTranscript(_Rows)`. -/
def rebuildConversationFromTranscript (tNow : Nat) (rows : List TRow) : Conversation :=
  rebuildTAux tNow Conversation.empty none 0 rows

/-- One dumped row for an assistant-reply path: emit each side whose node
resolves and has a truthy (non-empty) message, with
`content.timestamp ?? createdAt`. -/
def dumpRow (c : Conversation) (p : Path) : TRow :=
  let user := match p.fromId with
    | some fid => c.findNode fid
    | none => none
  let system := match p.toId with
    | some tid => c.findNode tid
    | none => none
  { user := match user with
      | some n =>
        match n.content with
        | some ct =>
          if ct.message = "" then none
          else some (ct.message, ct.timestamp.getD n.createdAt)
        | none => none
      | none => none,
    system := match system with
      | some n =>
        match n.content with
        | some ct =>
          if ct.message = "" then none
          else some (ct.message, ct.timestamp.getD n.createdAt)
        | none => none
      | none => none }

/-- `dumpTranscript(convo)`: one row per `assistant-reply` path, skipped
when both sides are empty. -/
def dumpTranscript (c : Conversation) : List TRow :=
  c.paths.filterMap (fun p =>
    if p.process.label == some "assistant-reply" then
      let r := dumpRow c p
      if r.user.isSome || r.system.isSome then some r else none
    else none)

/-- Shape rebuild, row with both sides (`startedAt` is the user timestamp
verbatim, never the min). -/
def completeRowS (tNow i : Nat) (u s : Msg) (c : Conversation) : Conversation × Pair :=
  let savedTail := c.tail
  let res := Conversation.user tNow u.message u.options { c with tail := none }
  let pair := res.2
  let c2 := if truthyNat u.timestamp
    then res.1.updNode pair.userId (setCtTimestamp (u.timestamp.getD 0))
    else res.1
  let c3 := { c2 with tail := restoreTail savedTail pair.systemId }
  let c4 := c3.updNode pair.systemId (setContent tNow s.message s.options)
  let c5 := if truthyNat s.timestamp
    then c4.updNode pair.systemId (setCtTimestamp (s.timestamp.getD 0))
    else c4
  let sAt := u.timestamp.getD tNow
  let eAt := s.timestamp.getD sAt
  let c6 := c5.updPath pair.pathIdx (fun p =>
    { p with process := { p.process with
        startedAt := some sAt, endedAt := some eAt, status := .done,
        steps := p.process.steps ++
          [{ name := "rebuild", startedAt := sAt, endedAt := some eAt, ok := some true,
             info := some [("i", IVal.nat i)] }] } })
  (c6, pair)

/-- Shape rebuild, user-only row: `startedAt` from the row, then the
declared status applied through the corresponding `Path` transition
(default `start()`), then one open `rebuild` step. -/
def userRowS (tNow i : Nat) (u : Msg) (st : Option RowStatus) (c : Conversation) :
    Conversation × Pair :=
  let savedTail := c.tail
  let res := Conversation.user tNow u.message u.options { c with tail := none }
  let pair := res.2
  let c2 := if truthyNat u.timestamp
    then res.1.updNode pair.userId (setCtTimestamp (u.timestamp.getD 0))
    else res.1
  let c3 := { c2 with tail := restoreTail savedTail pair.systemId }
  let sAt := u.timestamp.getD tNow
  let c4 := c3.updPath pair.pathIdx (fun p =>
    { p with process := { p.process with startedAt := some sAt } })
  let c5 := c4.updPath pair.pathIdx (match st with
    | some .queued => Path.start tNow
    | some .running => Path.running tNow
    | some .done => Path.done tNow
    | some .error => Path.error tNow none
    | none => Path.start tNow)
  let c6 := c5.updPath pair.pathIdx (fun p =>
    { p with process := { p.process with
        steps := p.process.steps ++
          [{ name := "rebuild", startedAt := sAt,
             info := some [("i", IVal.nat i),
                           ("status", IVal.str (st.getD .queued).str)] }] } })
  (c6, pair)

/-- Shape rebuild, system-only row with a pending pair. -/
def finalizePendingS (tNow i : Nat) (s : Msg) (c : Conversation) (lp : Pair) :
    Conversation :=
  let c1 := c.updNode lp.systemId (setContent tNow s.message s.options)
  let c2 := if truthyNat s.timestamp
    then c1.updNode lp.systemId (setCtTimestamp (s.timestamp.getD 0))
    else c1
  let sTs := s.timestamp.getD tNow
  let c3 := c2.updPath lp.pathIdx (fun p =>
    { p with process := { p.process with
        startedAt := some sTs, endedAt := some sTs, status := .done } })
  c3.updPath lp.pathIdx (updRebuildStep sTs [("i", IVal.nat i)])

/-- Shape rebuild, standalone system row. -/
def sysRowS (tNow : Nat) (s : Msg) (c : Conversation) : Conversation :=
  let savedTail := c.tail
  let res := Conversation.system tNow (some s.message) { c with tail := none }
  let c1 := { res.1 with tail := restoreTail savedTail res.2 }
  if truthyNat s.timestamp then c1.updNode res.2 (setCtTimestamp (s.timestamp.getD 0))
  else c1

/-- The row loop of `rebuildConversationFromShape`. -/
def rebuildSAux (tNow : Nat) (c : Conversation) (lp : Option Pair) (i : Nat) :
    List Row → Conversation
  | [] => c
  | row :: rest =>
    if hasMsg row.user && hasMsg row.system then
      let res := completeRowS tNow i (msgOf row.user) (msgOf row.system) c
      rebuildSAux tNow res.1 (some res.2) (i + 1) rest
    else if hasMsg row.user then
      let res := userRowS tNow i (msgOf row.user) row.status c
      rebuildSAux tNow res.1 (some res.2) (i + 1) rest
    else if hasMsg row.system then
      match lp with
      | some lpair =>
        rebuildSAux tNow (finalizePendingS tNow i (msgOf row.system) c lpair) lp
          (i + 1) rest
      | none => rebuildSAux tNow (sysRowS tNow (msgOf row.system) c) lp (i + 1) rest
    else rebuildSAux tNow c lp (i + 1) rest

/-- `rebuildConversationFromShape(rows)`. -/
def rebuildConversationFromShape (tNow : Nat) (rows : List Row) : Conversation :=
  rebuildSAux tNow Conversation.empty none 0 rows

/-- The live construction the spec compares reconstruction against: one
`user()` + `resolveAssistant()` round per exchange (message, reply). -/
def liveFromExchanges (t : Nat) (ex : List (String × String)) (c : Conversation) :
    Conversation :=
  match ex with
  | [] => c
  | (m, r) :: rest =>
    let res := Conversation.user t m none c
    liveFromExchanges t rest (Conversation.resolveAssistant t res.1 res.2 r none)

/-- The exchanges underlying a list of transcript rows. -/
def exchangesT (rows : List TRow) : List (String × String) :=
  rows.map (fun r => ((r.user.getD ("", 0)).1, (r.system.getD ("", 0)).1))

/-- The exchanges underlying a list of shape rows. -/
def exchangesS (rows : List Row) : List (String × String) :=
  rows.map (fun r => ((msgOf r.user).message, (msgOf r.system).message))

/-- C1 as stated is FALSE: on two complete rows the reconstructed graph is
not chain-equivalent to the live graph — rebuild suppresses cross-row
links, so `chain()` stops after the first pair and `tail` stays at the
first row's responder instead of the last appended node. -/
theorem claim1_counterexample :
    (rebuildConversationFromTranscript 100
      [{ user := some ("U1", 1), system := some ("S1", 2) },
       { user := some ("U2", 3), system := some ("S2", 4) }]).chainSig =
      [(NodeType.user, some "U1"), (NodeType.system, some "S1")] ∧
    (liveFromExchanges 100 [("U1", "S1"), ("U2", "S2")] Conversation.empty).chainSig =
      [(NodeType.user, some "U1"), (NodeType.system, some "S1"),
       (NodeType.user, some "U2"), (NodeType.system, some "S2")] ∧
    (rebuildConversationFromTranscript 100
      [{ user := some ("U1", 1), system := some ("S1", 2) },
       { user := some ("U2", 3), system := some ("S2", 4) }]).chainSig ≠
      (liveFromExchanges 100 [("U1", "S1"), ("U2", "S2")] Conversation.empty).chainSig ∧
    (rebuildConversationFromTranscript 100
      [{ user := some ("U1", 1), system := some ("S1", 2) },
       { user := some ("U2", 3), system := some ("S2", 4) }]).tail = some 1 ∧
    ((rebuildConversationFromTranscript 100
      [{ user := some ("U1", 1), system := some ("S1", 2) },
       { user := some ("U2", 3), system := some ("S2", 4) }]).nodes.getLast?).map
        Node.id = some 3 := by
  refine ⟨by decide, by decide, by decide, by decide, by decide⟩

/-- C2 as stated is FALSE: a pending user-only row matched by a later
system-only row dumps back as a single merged complete row, not as the
original two rows. -/
theorem claim2_counterexample :
    dumpTranscript (rebuildConversationFromTranscript 100
      [{ user := some ("U", 1) }, { system := some ("S", 2) }]) =
      [{ user := some ("U", 1), system := some ("S", 2) }] ∧
    ([{ user := some ("U", 1), system := some ("S", 2) }] : List TRow) ≠
      [{ user := some ("U", 1) }, { system := some ("S", 2) }] := by
  refine ⟨by decide, by decide⟩

/-- C4 as stated is FALSE: the two formats are swapped.  With a row whose
responder timestamp (5) precedes the initiator timestamp (10), the shape
format sets `startedAt` to the initiator timestamp 10 (not the earlier 5),
and the transcript format sets it to the earlier 5 (not the initiator's
10). -/
theorem claim4_counterexample :
    ((rebuildConversationFromShape 100
      [{ user := some { message := "U", timestamp := some 10 },
         system := some { message := "S", timestamp := some 5 } }]).paths[0]?).map
        (fun p => p.process.startedAt) = some (some 10) ∧
    some (some 10) ≠ some (some (min 10 5 : Nat)) ∧
    ((rebuildConversationFromTranscript 100
      [{ user := some ("U", 10), system := some ("S", 5) }]).paths[0]?).map
        (fun p => p.process.startedAt) = some (some (min 10 5 : Nat)) ∧
    some (some (min 10 5 : Nat)) ≠ some (some 10) := by
  refine ⟨by decide, by decide, by decide, by decide⟩

/-! ## Explicit form of a transcript rebuild over complete rows
For rows that all carry both tuples, `rebuildConversationFromTranscript`
is computed in closed form: row `j` contributes the user node `2j`, the
responder node `2j+1` and one finished `assistant-reply` path, with no
cross-row links, `head = 0` and `tail` stuck at node `1`. -/

/-- The user node a complete transcript row leaves behind (`uId` is the
id handed out when the row was processed). -/
def rbUserNode (t uId : Nat) (u : String) (uTs : Nat) : Node :=
  { id := uId, type := .user, status := .ready,
    content := some { message := u, options := none, timestamp := some uTs },
    createdAt := t, next := some (uId + 1), previous := none }

/-- The responder node a complete transcript row leaves behind. -/
def rbSysNode (t uId : Nat) (s : String) (sTs : Nat) : Node :=
  { id := uId + 1, type := .system, status := .ready,
    content := some { message := s, options := none, timestamp := some sTs },
    createdAt := t, next := none, previous := some uId }

/-- The finished path a complete transcript row leaves behind (`i` is
the row index recorded in the rebuild step). -/
def rbPathT (uId i uTs sTs : Nat) : Path :=
  { fromId := some uId, toId := some (uId + 1),
    process := { label := some "assistant-reply", status := .done,
                 startedAt := some (min uTs sTs), endedAt := some sTs,
                 steps := [{ name := "rebuild", startedAt := uTs, endedAt := some sTs,
                             ok := some true,
                             info := some [("imported", IVal.bool true),
                                           ("index", IVal.nat i)] }] } }

def expNodesT (t : Nat) (j0 : Nat) : List TRow → List Node
  | [] => []
  | r :: rest =>
    rbUserNode t (2 * j0) (r.user.getD ("", 0)).1 (r.user.getD ("", 0)).2 ::
    rbSysNode t (2 * j0) (r.system.getD ("", 0)).1 (r.system.getD ("", 0)).2 ::
    expNodesT t (j0 + 1) rest

def expPathsT (j0 : Nat) : List TRow → List Path
  | [] => []
  | r :: rest =>
    rbPathT (2 * j0) j0 (r.user.getD ("", 0)).2 (r.system.getD ("", 0)).2 ::
    expPathsT (j0 + 1) rest

/-- The closed form of the whole rebuilt conversation. -/
def expConvT (t : Nat) (rows : List TRow) : Conversation :=
  { nextId := 2 * rows.length,
    head := if rows.isEmpty then none else some 0,
    tail := if rows.isEmpty then none else some 1,
    nodes := expNodesT t 0 rows,
    paths := expPathsT 0 rows }

theorem expNodesT_append (t : Nat) (l1 l2 : List TRow) : ∀ j0,
    expNodesT t j0 (l1 ++ l2) = expNodesT t j0 l1 ++ expNodesT t (j0 + l1.length) l2 := by
  induction l1 with
  | nil => intro j0; simp [expNodesT]
  | cons r rest ih =>
    intro j0
    show _ :: _ :: expNodesT t (j0 + 1) (rest ++ l2) = _
    rw [ih (j0 + 1)]
    simp [expNodesT]
    rw [show j0 + (rest.length + 1) = j0 + 1 + rest.length by omega]

theorem expPathsT_append (l1 l2 : List TRow) : ∀ j0,
    expPathsT j0 (l1 ++ l2) = expPathsT j0 l1 ++ expPathsT (j0 + l1.length) l2 := by
  induction l1 with
  | nil => intro j0; simp [expPathsT]
  | cons r rest ih =>
    intro j0
    show _ :: expPathsT (j0 + 1) (rest ++ l2) = _
    rw [ih (j0 + 1)]
    simp [expPathsT]
    rw [show j0 + (rest.length + 1) = j0 + 1 + rest.length by omega]

theorem expPathsT_length (l : List TRow) : ∀ j0, (expPathsT j0 l).length = l.length := by
  induction l with
  | nil => intro j0; rfl
  | cons r rest ih =>
    intro j0
    show (_ :: expPathsT (j0 + 1) rest).length = _
    simp [ih (j0 + 1)]

theorem expNodesT_ids_lt (t : Nat) (l : List TRow) : ∀ j0,
    ∀ n ∈ expNodesT t j0 l, n.id < 2 * (j0 + l.length) := by
  induction l with
  | nil => intro j0 n hn; cases hn
  | cons r rest ih =>
    intro j0 n hn
    rcases List.mem_cons.mp hn with rfl | hn2
    · show 2 * j0 < 2 * (j0 + (r :: rest).length)
      simp only [List.length_cons]
      omega
    · rcases List.mem_cons.mp hn2 with rfl | hn3
      · show 2 * j0 + 1 < 2 * (j0 + (r :: rest).length)
        simp only [List.length_cons]
        omega
      · have := ih (j0 + 1) n hn3
        simp only [List.length_cons]
        omega

theorem updNodes_pair_left (N : List Node) (U S : Node) (i : Nat) (f : Node → Node)
    (hN : ∀ n ∈ N, n.id ≠ i) (hU : U.id = i) (hS : S.id ≠ i) :
    updNodes i f (N ++ [U, S]) = N ++ [f U, S] := by
  rw [show N ++ [U, S] = N ++ ([U] ++ [S]) from by simp, updNodes_append, updNodes_append,
    updNodes_of_not_mem _ _ N hN]
  simp [updNodes, hU, hS]

theorem updNodes_pair_right (N : List Node) (U S : Node) (i : Nat) (f : Node → Node)
    (hN : ∀ n ∈ N, n.id ≠ i) (hU : U.id ≠ i) (hS : S.id = i) :
    updNodes i f (N ++ [U, S]) = N ++ [U, f S] := by
  rw [show N ++ [U, S] = N ++ ([U] ++ [S]) from by simp, updNodes_append, updNodes_append,
    updNodes_of_not_mem _ _ N hN]
  simp [updNodes, hU, hS]

/-- `user()` on a conversation whose `tail` is cleared (as during
rebuild): no cross link is created. -/
theorem user_on_tailless (t : Nat) (m : String) (o : Option (List String))
    (ni : Nat) (hd : Option Nat) (ns : List Node) (ps : List Path) :
    Conversation.user t m o ⟨ni, hd, none, ns, ps⟩ =
      (⟨ni + 2,
        (match hd with | some hh => some hh | none => some ni),
        some (ni + 1),
        ns ++ [mkUserNode t m o ni (ni + 1) none, mkSysNode t (ni + 1) ni],
        ps ++ [Path.start t (Path.mk' (some ni) (some (ni + 1))
          (some "assistant-reply"))]⟩,
       ⟨ni, ni + 1, ps.length⟩) := by
  simp [Conversation.user]

/-- Processing one complete transcript row on any id-coherent
conversation, in closed form. -/
theorem completeRowT_general (t i : Nat) (c : Conversation) (u s : String) (uTs sTs : Nat)
    (hWF : ∀ n ∈ c.nodes, n.id < c.nextId) :
    completeRowT t i u uTs s sTs c =
      (⟨c.nextId + 2,
        (match c.head with | some hh => some hh | none => some c.nextId),
        restoreTail c.tail (c.nextId + 1),
        c.nodes ++ [rbUserNode t c.nextId u uTs, rbSysNode t c.nextId s sTs],
        c.paths ++ [rbPathT c.nextId i uTs sTs]⟩,
       ⟨c.nextId, c.nextId + 1, c.paths.length⟩) := by
  unfold completeRowT
  dsimp only
  rw [show ({ c with tail := none } : Conversation) =
    ⟨c.nextId, c.head, none, c.nodes, c.paths⟩ from rfl]
  rw [user_on_tailless]
  dsimp only
  rw [Prod.mk.injEq]
  refine ⟨?_, rfl⟩
  simp only [Conversation.updNode, Conversation.updPath, Conversation.mk.injEq]
  refine ⟨trivial, trivial, trivial, ?_, ?_⟩
  · rw [updNodes_pair_left c.nodes (mkUserNode t u none c.nextId (c.nextId + 1) none)
      (mkSysNode t (c.nextId + 1) c.nextId) c.nextId (setCtTimestamp uTs)
      (fun n hn => Nat.ne_of_lt (hWF n hn)) rfl
      (by show c.nextId + 1 ≠ c.nextId; omega)]
    rw [updNodes_pair_right c.nodes _ _ (c.nextId + 1) (setContent t s none)
      (fun n hn => by have := hWF n hn; omega)
      (by show c.nextId ≠ c.nextId + 1; omega) rfl]
    rw [updNodes_pair_right c.nodes _ _ (c.nextId + 1) (setCtTimestamp sTs)
      (fun n hn => by have := hWF n hn; omega)
      (by show c.nextId ≠ c.nextId + 1; omega) rfl]
    rfl
  · rw [updAt_append_length]
    rfl

theorem expNodesT_snoc (t : Nat) (pre : List TRow) (r : TRow) : ∀ j0,
    expNodesT t j0 (pre ++ [r]) = expNodesT t j0 pre ++
      [rbUserNode t (2 * (j0 + pre.length)) (r.user.getD ("", 0)).1
        (r.user.getD ("", 0)).2,
       rbSysNode t (2 * (j0 + pre.length)) (r.system.getD ("", 0)).1
        (r.system.getD ("", 0)).2] := by
  intro j0
  rw [expNodesT_append t pre [r] j0]
  rfl

theorem expPathsT_snoc (pre : List TRow) (r : TRow) : ∀ j0,
    expPathsT j0 (pre ++ [r]) = expPathsT j0 pre ++
      [rbPathT (2 * (j0 + pre.length)) (j0 + pre.length) (r.user.getD ("", 0)).2
        (r.system.getD ("", 0)).2] := by
  intro j0
  rw [expPathsT_append pre [r] j0]
  rfl

/-- Appending one complete row to the closed form. -/
theorem expConvT_snoc (t : Nat) (pre : List TRow) (u s : String) (uTs sTs : Nat) :
    expConvT t (pre ++ [{ user := some (u, uTs), system := some (s, sTs) }]) =
      ⟨(expConvT t pre).nextId + 2,
       (match (expConvT t pre).head with
        | some hh => some hh
        | none => some (expConvT t pre).nextId),
       restoreTail (expConvT t pre).tail ((expConvT t pre).nextId + 1),
       (expConvT t pre).nodes ++
         [rbUserNode t (expConvT t pre).nextId u uTs,
          rbSysNode t (expConvT t pre).nextId s sTs],
       (expConvT t pre).paths ++
         [rbPathT (expConvT t pre).nextId pre.length uTs sTs]⟩ := by
  cases pre with
  | nil => rfl
  | cons p pre' =>
    have hn := expNodesT_snoc t (p :: pre')
      { user := some (u, uTs), system := some (s, sTs) } 0
    have hp := expPathsT_snoc (p :: pre')
      { user := some (u, uTs), system := some (s, sTs) } 0
    simp only [List.length_cons, Nat.zero_add, Option.getD_some] at hn hp
    simp only [expConvT, List.cons_append, List.isEmpty_cons, List.length_cons,
      List.length_append, List.length_nil, restoreTail, Conversation.mk.injEq,
      expPathsT_length]
    refine ⟨by omega, rfl, rfl, ?_, ?_⟩
    · rw [show (p :: (pre' ++
        [({ user := some (u, uTs), system := some (s, sTs) } : TRow)])) =
        (p :: pre') ++ [({ user := some (u, uTs), system := some (s, sTs) } : TRow)]
        from rfl]
      rw [hn]
    · rw [show (p :: (pre' ++
        [({ user := some (u, uTs), system := some (s, sTs) } : TRow)])) =
        (p :: pre') ++ [({ user := some (u, uTs), system := some (s, sTs) } : TRow)]
        from rfl]
      rw [hp]

/-- The whole rebuild loop over complete rows, in closed form. -/
theorem rebuildTAux_complete (t : Nat) :
    ∀ (rest : List TRow), (∀ r ∈ rest, r.user.isSome ∧ r.system.isSome) →
    ∀ (pre : List TRow) (lp : Option Pair),
    rebuildTAux t (expConvT t pre) lp pre.length rest = expConvT t (pre ++ rest) := by
  intro rest
  induction rest with
  | nil =>
    intro h pre lp
    simp [rebuildTAux]
  | cons r rest' ih =>
    intro h pre lp
    obtain ⟨hu, hs⟩ := h r (List.mem_cons_self r rest')
    obtain ⟨⟨u, uTs⟩, hueq⟩ := Option.isSome_iff_exists.mp hu
    obtain ⟨⟨s, sTs⟩, hseq⟩ := Option.isSome_iff_exists.mp hs
    have hWF : ∀ n ∈ (expConvT t pre).nodes, n.id < (expConvT t pre).nextId := by
      intro n hn
      have := expNodesT_ids_lt t pre 0 n hn
      show n.id < 2 * pre.length
      simpa using this
    rw [show rebuildTAux t (expConvT t pre) lp pre.length (r :: rest') =
      rebuildTAux t (completeRowT t pre.length u uTs s sTs (expConvT t pre)).1
        (some (completeRowT t pre.length u uTs s sTs (expConvT t pre)).2)
        (pre.length + 1) rest' from by
      simp only [rebuildTAux, hueq, hseq]]
    rw [completeRowT_general t pre.length (expConvT t pre) u s uTs sTs hWF]
    dsimp only
    rw [show (expConvT t pre).paths.length = pre.length from expPathsT_length pre 0]
    rw [← expConvT_snoc t pre u s uTs sTs]
    have hstep := ih (fun x hx => h x (List.mem_cons_of_mem r hx))
      (pre ++ [{ user := some (u, uTs), system := some (s, sTs) }])
      (some ⟨(expConvT t pre).nextId, (expConvT t pre).nextId + 1, pre.length⟩)
    rw [show (pre ++ [({ user := some (u, uTs), system := some (s, sTs) } : TRow)]).length
      = pre.length + 1 from by simp] at hstep
    rw [hstep]
    have hr : r = { user := some (u, uTs), system := some (s, sTs) } := by
      cases r
      simp only [TRow.mk.injEq]
      exact ⟨hueq, hseq⟩
    rw [hr]
    simp

/-- `rebuildConversationFromTranscript` over complete rows equals the
closed form. -/
theorem rebuildT_complete_eq (t : Nat) (rows : List TRow)
    (h : ∀ r ∈ rows, r.user.isSome ∧ r.system.isSome) :
    rebuildConversationFromTranscript t rows = expConvT t rows :=
  rebuildTAux_complete t rows h [] none

theorem updNode_paths (c : Conversation) (i : Nat) (f : Node → Node) :
    (Conversation.updNode c i f).paths = c.paths := rfl

theorem updPath_nodes (c : Conversation) (i : Nat) (f : Path → Path) :
    (Conversation.updPath c i f).nodes = c.nodes := rfl

/-- A single complete shape row rebuilt from scratch: one finished path
whose `startedAt` is the row's user timestamp verbatim. -/
theorem rebuildS_single_complete (tN : Nat) (u s : Msg) (hu : u.message ≠ "")
    (hs : s.message ≠ "") :
    (rebuildConversationFromShape tN
        [{ user := some u, system := some s, status := none }]).paths =
      [⟨some 0, some 1,
        { label := some "assistant-reply", status := .done,
          startedAt := some (u.timestamp.getD tN),
          endedAt := some (s.timestamp.getD (u.timestamp.getD tN)),
          steps := [{ name := "rebuild", startedAt := u.timestamp.getD tN,
                      endedAt := some (s.timestamp.getD (u.timestamp.getD tN)),
                      ok := some true, info := some [("i", IVal.nat 0)] }] }⟩] := by
  have hu' : hasMsg (some u) = true := by
    simp only [hasMsg, bne_iff_ne, ne_eq]
    exact hu
  have hs' : hasMsg (some s) = true := by
    simp only [hasMsg, bne_iff_ne, ne_eq]
    exact hs
  show (rebuildSAux tN Conversation.empty none 0
    [{ user := some u, system := some s, status := none }]).paths = _
  rw [show rebuildSAux tN Conversation.empty none 0
      [{ user := some u, system := some s, status := none }] =
    (completeRowS tN 0 (msgOf (some u)) (msgOf (some s)) Conversation.empty).1 from by
    simp only [rebuildSAux, hu', hs', Bool.and_self, if_true]]
  simp only [msgOf, Option.getD_some]
  unfold completeRowS
  dsimp only
  rw [show ({ Conversation.empty with tail := none } : Conversation) =
    (⟨0, none, none, [], []⟩ : Conversation) from rfl]
  rw [user_on_tailless]
  dsimp only
  simp only [Conversation.updPath, Conversation.updNode, apply_ite Conversation.paths,
    ite_self, List.nil_append, updAt]
  rfl

/-- C4 (amended): for a persisted row with both contents and explicit
timestamps, the SHAPE reconstruction sets `process.startedAt` to the
initiator (user) timestamp verbatim, while the TRANSCRIPT reconstruction
sets it to the earlier of the two timestamps; in both formats
`process.endedAt` is the responder timestamp and the status is `done`.
(The two formats are swapped relative to the claim.) -/
theorem claim4_startedAt_amended (u s : String) (uo so : Option (List String))
    (uTs sTs tN : Nat) (hu : u ≠ "") (hs : s ≠ "") :
    ((rebuildConversationFromShape tN
        [{ user := some { message := u, options := uo, timestamp := some uTs },
           system := some { message := s, options := so, timestamp := some sTs },
           status := none }]).paths[0]?).map
      (fun p => (p.process.startedAt, p.process.endedAt, p.process.status)) =
      some (some uTs, some sTs, ProcessStatus.done) ∧
    ((rebuildConversationFromTranscript tN
        [{ user := some (u, uTs), system := some (s, sTs) }]).paths[0]?).map
      (fun p => (p.process.startedAt, p.process.endedAt, p.process.status)) =
      some (some (min uTs sTs), some sTs, ProcessStatus.done) := by
  constructor
  · rw [rebuildS_single_complete tN { message := u, options := uo, timestamp := some uTs }
      { message := s, options := so, timestamp := some sTs } hu hs]
    rfl
  · rw [rebuildT_complete_eq tN [{ user := some (u, uTs), system := some (s, sTs) }]
      (by intro r hr; rw [List.mem_singleton] at hr; subst hr; exact ⟨rfl, rfl⟩)]
    rfl

/-- Witness for C4 (amended) at timestamps 10 (user) and 5 (system). -/
theorem claim4_startedAt_amended_witness :
    ((rebuildConversationFromShape 100
        [{ user := some { message := "U", timestamp := some 10 },
           system := some { message := "S", timestamp := some 5 } }]).paths[0]?).map
      (fun p => (p.process.startedAt, p.process.endedAt, p.process.status)) =
      some (some 10, some 5, ProcessStatus.done) ∧
    ((rebuildConversationFromTranscript 100
        [{ user := some ("U", 10), system := some ("S", 5) }]).paths[0]?).map
      (fun p => (p.process.startedAt, p.process.endedAt, p.process.status)) =
      some (some (min 10 5 : Nat), some 5, ProcessStatus.done) :=
  claim4_startedAt_amended "U" "S" none none 10 5 100 (by decide) (by decide)

theorem find_expNodesT_user (t : Nat) : ∀ (rows : List TRow) (j0 k : Nat) (r : TRow),
    rows[k]? = some r →
    (expNodesT t j0 rows).find? (fun n => n.id == 2 * (j0 + k)) =
      some (rbUserNode t (2 * (j0 + k)) (r.user.getD ("", 0)).1
        (r.user.getD ("", 0)).2) := by
  intro rows
  induction rows with
  | nil =>
    intro j0 k r hk
    simp at hk
  | cons r0 rest ih =>
    intro j0 k r hk
    cases k with
    | zero =>
      rw [List.getElem?_cons_zero] at hk
      injection hk with hk
      subst hk
      show List.find? _ (rbUserNode t (2 * j0) _ _ :: _) = _
      rw [List.find?_cons_of_pos _ (by simp [rbUserNode] <;> omega)]
      rw [Nat.add_zero]
    | succ k' =>
      rw [List.getElem?_cons_succ] at hk
      show List.find? _ (rbUserNode t (2 * j0) _ _ :: rbSysNode t (2 * j0) _ _ :: _) = _
      rw [List.find?_cons_of_neg _ (by simp [rbUserNode] <;> omega)]
      rw [List.find?_cons_of_neg _ (by simp [rbSysNode] <;> omega)]
      rw [show 2 * (j0 + (k' + 1)) = 2 * ((j0 + 1) + k') from by ring]
      exact ih (j0 + 1) k' r hk

theorem find_expNodesT_sys (t : Nat) : ∀ (rows : List TRow) (j0 k : Nat) (r : TRow),
    rows[k]? = some r →
    (expNodesT t j0 rows).find? (fun n => n.id == 2 * (j0 + k) + 1) =
      some (rbSysNode t (2 * (j0 + k)) (r.system.getD ("", 0)).1
        (r.system.getD ("", 0)).2) := by
  intro rows
  induction rows with
  | nil =>
    intro j0 k r hk
    simp at hk
  | cons r0 rest ih =>
    intro j0 k r hk
    cases k with
    | zero =>
      rw [List.getElem?_cons_zero] at hk
      injection hk with hk
      subst hk
      show List.find? _ (rbUserNode t (2 * j0) _ _ :: rbSysNode t (2 * j0) _ _ :: _) = _
      rw [List.find?_cons_of_neg _ (by simp [rbUserNode] <;> omega)]
      rw [List.find?_cons_of_pos _ (by simp [rbSysNode] <;> omega)]
      rw [Nat.add_zero]
    | succ k' =>
      rw [List.getElem?_cons_succ] at hk
      show List.find? _ (rbUserNode t (2 * j0) _ _ :: rbSysNode t (2 * j0) _ _ :: _) = _
      rw [List.find?_cons_of_neg _ (by simp [rbUserNode] <;> omega)]
      rw [List.find?_cons_of_neg _ (by simp [rbSysNode] <;> omega)]
      rw [show 2 * (j0 + (k' + 1)) = 2 * ((j0 + 1) + k') from by ring]
      exact ih (j0 + 1) k' r hk

/-- A row is complete with non-empty messages on both sides. -/
def CompleteRowNE (r : TRow) : Prop :=
  (∃ u uTs, r.user = some (u, uTs) ∧ u ≠ "") ∧
  (∃ s sTs, r.system = some (s, sTs) ∧ s ≠ "")

/-- Dumping the paths of the closed form recovers the rows, provided the
node index resolves each path's endpoints to the explicit nodes. -/
theorem dump_expPathsT (t : Nat) (C : Conversation) :
    ∀ (rows' : List TRow) (j0 : Nat),
    (∀ r ∈ rows', CompleteRowNE r) →
    (∀ k r, rows'[k]? = some r →
      C.findNode (2 * (j0 + k)) = some (rbUserNode t (2 * (j0 + k))
        (r.user.getD ("", 0)).1 (r.user.getD ("", 0)).2)) →
    (∀ k r, rows'[k]? = some r →
      C.findNode (2 * (j0 + k) + 1) = some (rbSysNode t (2 * (j0 + k))
        (r.system.getD ("", 0)).1 (r.system.getD ("", 0)).2)) →
    (expPathsT j0 rows').filterMap (fun p =>
      if p.process.label == some "assistant-reply" then
        let r := dumpRow C p
        if r.user.isSome || r.system.isSome then some r else none
      else none) = rows' := by
  intro rows'
  induction rows' with
  | nil => intro j0 _ _ _; rfl
  | cons r rest ih =>
    intro j0 h hfU hfS
    obtain ⟨⟨u, uTs, hu, hune⟩, ⟨s, sTs, hs, hsne⟩⟩ := h r (List.mem_cons_self r rest)
    have hfU0 := hfU 0 r (by rw [List.getElem?_cons_zero])
    have hfS0 := hfS 0 r (by rw [List.getElem?_cons_zero])
    simp only [Nat.add_zero] at hfU0 hfS0
    rw [hu] at hfU0
    rw [hs] at hfS0
    simp only [Option.getD_some] at hfU0 hfS0
    show ((rbPathT (2 * j0) j0 (r.user.getD ("", 0)).2 (r.system.getD ("", 0)).2) ::
      expPathsT (j0 + 1) rest).filterMap _ = r :: rest
    rw [List.filterMap_cons]
    have hrow : dumpRow C (rbPathT (2 * j0) j0 (r.user.getD ("", 0)).2
        (r.system.getD ("", 0)).2) = r := by
      unfold dumpRow
      dsimp only [rbPathT]
      rw [hfU0, hfS0]
      dsimp only [rbUserNode, rbSysNode]
      rw [if_neg hune, if_neg hsne]
      simp only [Option.getD_some]
      cases r
      simp only [TRow.mk.injEq] at hu hs ⊢
      exact ⟨hu.symm, hs.symm⟩
    have hF : (if ((rbPathT (2 * j0) j0 (r.user.getD ("", 0)).2
          (r.system.getD ("", 0)).2).process.label == some "assistant-reply") = true then
        let q := dumpRow C (rbPathT (2 * j0) j0 (r.user.getD ("", 0)).2
          (r.system.getD ("", 0)).2)
        if q.user.isSome || q.system.isSome then some q else none
      else none) = some r := by
      have hlab : ((rbPathT (2 * j0) j0 (r.user.getD ("", 0)).2
          (r.system.getD ("", 0)).2).process.label ==
          some "assistant-reply") = true := rfl
      simp only [hlab, if_true, hrow]
      rw [if_pos (show (r.user.isSome || r.system.isSome) = true from by
        rw [hu]; rfl)]
    rw [hF]
    dsimp only
    rw [ih (j0 + 1) (fun x hx => h x (List.mem_cons_of_mem r hx))
      (fun k x hk => by
        have := hfU (k + 1) x (by rw [List.getElem?_cons_succ]; exact hk)
        rw [show 2 * ((j0 + 1) + k) = 2 * (j0 + (k + 1)) from by ring]
        exact this)
      (fun k x hk => by
        have := hfS (k + 1) x (by rw [List.getElem?_cons_succ]; exact hk)
        rw [show 2 * ((j0 + 1) + k) = 2 * (j0 + (k + 1)) from by ring]
        exact this)]

/-- C2 (amended): the transcript round trip holds for rows that are all
complete with non-empty messages; a pending user-only row matched by a
later system-only row is instead merged into a single complete row by the
dump (see the counterexample). -/
theorem claim2_roundtrip_amended (tN : Nat) (rows : List TRow)
    (h : ∀ r ∈ rows, CompleteRowNE r) :
    dumpTranscript (rebuildConversationFromTranscript tN rows) = rows := by
  rw [rebuildT_complete_eq tN rows (by
    intro r hr
    obtain ⟨⟨u, uTs, hu, _⟩, ⟨s, sTs, hs, _⟩⟩ := h r hr
    constructor
    · rw [hu]; rfl
    · rw [hs]; rfl)]
  show (expConvT tN rows).paths.filterMap _ = rows
  rw [show (expConvT tN rows).paths = expPathsT 0 rows from rfl]
  exact dump_expPathsT tN (expConvT tN rows) rows 0 h
    (fun k r hk => find_expNodesT_user tN rows 0 k r hk)
    (fun k r hk => find_expNodesT_sys tN rows 0 k r hk)

/-- Witness for C2 (amended) on one complete row. -/
theorem claim2_roundtrip_amended_witness :
    dumpTranscript (rebuildConversationFromTranscript 100
      [{ user := some ("U", 1), system := some ("S", 2) }]) =
      [{ user := some ("U", 1), system := some ("S", 2) }] :=
  claim2_roundtrip_amended 100 [{ user := some ("U", 1), system := some ("S", 2) }]
    (by
      intro r hr
      rw [List.mem_singleton] at hr
      subst hr
      exact ⟨⟨"U", 1, rfl, by decide⟩, ⟨"S", 2, rfl, by decide⟩⟩)

/-- Witness for C9 on the empty conversation. -/
theorem claim9_userAsync_swallows_errors_witness :
    ∃ c' pr, Conversation.userAsync 3 "hi" (.thrown "boom") none Conversation.empty =
      (c', pr) ∧
      (c'.paths[pr.pathIdx]?).map (fun p => p.process.status) =
        some ProcessStatus.error ∧
      (c'.findNode pr.systemId).map Node.status = some NodeStatus.error ∧
      (c'.findNode pr.systemId).map (fun n => n.content.map (fun ct => ct.message)) =
        some (some "An error occurred.") ∧
      (c'.paths[pr.pathIdx]?).map (fun p => p.process.steps.getLast?) =
        some (some { name := "error", startedAt := 3, endedAt := some 3, ok := some false,
                     info := some [("error", IVal.str "boom")] }) :=
  claim9_userAsync_swallows_errors Conversation.empty 3 "hi" "boom" none
    (by intro n hn; simp [Conversation.empty] at hn)

/-! ## C1: what survives of the refinement claim
The rebuilt graph agrees with the live-built graph on the insertion-order
signature (roles and messages of `nodes`); `chain()`/`tail` agreement
holds only up to one row, because rebuild suppresses cross-row links. -/

/-- The role/message stream a list of exchanges should leave in `nodes`:
one user entry and one responder entry per exchange. -/
def sigOfExchanges : List (String × String) → List (NodeType × Option String)
  | [] => []
  | (m, r) :: rest =>
    (NodeType.user, some m) :: (NodeType.system, some r) :: sigOfExchanges rest

theorem expNodesT_sig (t : Nat) : ∀ (rows : List TRow) (j0 : Nat),
    (expNodesT t j0 rows).map nodeSig = sigOfExchanges (exchangesT rows) := by
  intro rows
  induction rows with
  | nil => intro j0; rfl
  | cons r rest ih =>
    intro j0
    show nodeSig (rbUserNode t (2 * j0) (r.user.getD ("", 0)).1 (r.user.getD ("", 0)).2) ::
      nodeSig (rbSysNode t (2 * j0) (r.system.getD ("", 0)).1 (r.system.getD ("", 0)).2) ::
      (expNodesT t (j0 + 1) rest).map nodeSig = sigOfExchanges (exchangesT (r :: rest))
    rw [ih (j0 + 1)]
    rfl

theorem user_nodes_none (t : Nat) (m : String) (o : Option (List String))
    (c : Conversation) (htl : c.tail = none) :
    (Conversation.user t m o c).1.nodes =
      c.nodes ++ [mkUserNode t m o c.nextId (c.nextId + 1) none,
        mkSysNode t (c.nextId + 1) c.nextId] := by
  simp [Conversation.user, htl]

theorem user_nodes_some (t : Nat) (m : String) (o : Option (List String))
    (c : Conversation) (tl : Nat) (htl : c.tail = some tl) :
    (Conversation.user t m o c).1.nodes =
      updNodes tl (fun n => { n with next := some c.nextId }) c.nodes ++
        [mkUserNode t m o c.nextId (c.nextId + 1) (some tl),
         mkSysNode t (c.nextId + 1) c.nextId] := by
  simp [Conversation.user, htl]

/-- `resolveAssistant` (no step info) right after `user()` only touches
the fresh responder node in the arena. -/
theorem resolve_after_user_nodes (t : Nat) (m r : String) (c : Conversation) :
    (Conversation.resolveAssistant t (Conversation.user t m none c).1
        (Conversation.user t m none c).2 r none).nodes =
      updNodes (c.nextId + 1) (setContent t r none)
        (Conversation.user t m none c).1.nodes := rfl

/-- A by-id node mutation that keeps every node's signature keeps the
whole signature stream. -/
theorem map_nodeSig_updNodes (i : Nat) (f : Node → Node)
    (hf : ∀ n, nodeSig (f n) = nodeSig n) (ns : List Node) :
    (updNodes i f ns).map nodeSig = ns.map nodeSig := by
  induction ns with
  | nil => rfl
  | cons a l ih =>
    show nodeSig (if a.id = i then f a else a) :: (updNodes i f l).map nodeSig =
      nodeSig a :: l.map nodeSig
    rw [ih]
    by_cases hc : a.id = i
    · rw [if_pos hc, hf]
    · rw [if_neg hc]

/-- One live `user()`+`resolveAssistant()` round appends exactly one user
and one responder signature. -/
theorem live_round_sig (t : Nat) (m r : String) (c : Conversation)
    (hWF : ∀ n ∈ c.nodes, n.id < c.nextId) :
    (Conversation.resolveAssistant t (Conversation.user t m none c).1
        (Conversation.user t m none c).2 r none).nodesSig =
      c.nodesSig ++ [(NodeType.user, some m), (NodeType.system, some r)] := by
  show List.map nodeSig (Conversation.resolveAssistant t (Conversation.user t m none c).1
      (Conversation.user t m none c).2 r none).nodes =
    List.map nodeSig c.nodes ++ [(NodeType.user, some m), (NodeType.system, some r)]
  rw [resolve_after_user_nodes]
  rcases htl : c.tail with _ | tl
  · rw [user_nodes_none t m none c htl]
    rw [updNodes_pair_right c.nodes _ _ (c.nextId + 1) (setContent t r none)
      (fun n hn => by have := hWF n hn; omega)
      (by show c.nextId ≠ c.nextId + 1; omega) rfl]
    rw [List.map_append]
    rfl
  · rw [user_nodes_some t m none c tl htl]
    rw [updNodes_pair_right (updNodes tl (fun n => { n with next := some c.nextId }) c.nodes)
      _ _ (c.nextId + 1) (setContent t r none)
      (fun n hn => by
        have := ids_lt_updNodes tl (fun n => { n with next := some c.nextId }) c.nodes
          c.nextId (fun x => rfl) hWF n hn
        omega)
      (by show c.nextId ≠ c.nextId + 1; omega) rfl]
    rw [List.map_append,
      map_nodeSig_updNodes tl (fun n => { n with next := some c.nextId })
        (fun n => rfl) c.nodes]
    rfl

/-- One live round keeps node ids below `nextId`. -/
theorem live_round_wf (t : Nat) (m r : String) (c : Conversation)
    (hWF : ∀ n ∈ c.nodes, n.id < c.nextId) :
    ∀ n ∈ (Conversation.resolveAssistant t (Conversation.user t m none c).1
        (Conversation.user t m none c).2 r none).nodes,
      n.id < (Conversation.resolveAssistant t (Conversation.user t m none c).1
        (Conversation.user t m none c).2 r none).nextId := by
  intro n hn
  rw [resolve_after_user_nodes] at hn
  show n.id < c.nextId + 2
  refine ids_lt_updNodes (c.nextId + 1) (setContent t r none) _ (c.nextId + 2)
    (fun x => rfl) ?_ n hn
  intro x hx
  rcases htl : c.tail with _ | tl
  · rw [user_nodes_none t m none c htl] at hx
    rcases List.mem_append.mp hx with hx | hx
    · have := hWF x hx
      omega
    · rcases List.mem_cons.mp hx with rfl | hx2
      · have hid : (mkUserNode t m none c.nextId (c.nextId + 1) none).id = c.nextId := rfl
        omega
      · rcases List.mem_cons.mp hx2 with rfl | hx3
        · have hid : (mkSysNode t (c.nextId + 1) c.nextId).id = c.nextId + 1 := rfl
          omega
        · cases hx3
  · rw [user_nodes_some t m none c tl htl] at hx
    rcases List.mem_append.mp hx with hx | hx
    · have := ids_lt_updNodes tl (fun y => { y with next := some c.nextId }) c.nodes
        c.nextId (fun y => rfl) hWF x hx
      omega
    · rcases List.mem_cons.mp hx with rfl | hx2
      · have hid : (mkUserNode t m none c.nextId (c.nextId + 1) (some tl)).id = c.nextId :=
          rfl
        omega
      · rcases List.mem_cons.mp hx2 with rfl | hx3
        · have hid : (mkSysNode t (c.nextId + 1) c.nextId).id = c.nextId + 1 := rfl
          omega
        · cases hx3

/-- The live construction appends the exchange signatures to the node
arena, in insertion order. -/
theorem liveFromExchanges_sig (t : Nat) :
    ∀ (ex : List (String × String)) (c : Conversation),
      (∀ n ∈ c.nodes, n.id < c.nextId) →
      (liveFromExchanges t ex c).nodesSig = c.nodesSig ++ sigOfExchanges ex := by
  intro ex
  induction ex with
  | nil =>
    intro c h
    show c.nodesSig = c.nodesSig ++ []
    rw [List.append_nil]
  | cons p rest ih =>
    intro c h
    obtain ⟨m, r⟩ := p
    rw [show liveFromExchanges t ((m, r) :: rest) c =
      liveFromExchanges t rest (Conversation.resolveAssistant t
        (Conversation.user t m none c).1 (Conversation.user t m none c).2 r none)
      from rfl]
    rw [ih _ (live_round_wf t m r c h)]
    rw [live_round_sig t m r c h]
    rw [List.append_assoc]
    rfl

/-- A single complete shape row rebuilt from scratch, whole-conversation
closed form (explicit nonzero timestamps pin the truthiness branches). -/
theorem rebuildS_single_conv (tN : Nat) (um sm : String) (uo so : Option (List String))
    (uTs sTs : Nat) (hu : um ≠ "") (hs : sm ≠ "") (hut : uTs ≠ 0) (hst : sTs ≠ 0) :
    rebuildConversationFromShape tN
        [{ user := some ⟨um, uo, some uTs⟩, system := some ⟨sm, so, some sTs⟩,
           status := none }] =
      ⟨2, some 0, some 1,
       [setCtTimestamp uTs (mkUserNode tN um uo 0 1 none),
        setCtTimestamp sTs (setContent tN sm so (mkSysNode tN 1 0))],
       [⟨some 0, some 1,
         { label := some "assistant-reply", status := .done,
           startedAt := some uTs, endedAt := some sTs,
           steps := [{ name := "rebuild", startedAt := uTs, endedAt := some sTs,
                       ok := some true, info := some [("i", IVal.nat 0)] }] }⟩]⟩ := by
  have hu' : hasMsg (some (⟨um, uo, some uTs⟩ : Msg)) = true := by
    simp only [hasMsg, bne_iff_ne, ne_eq]
    exact hu
  have hs' : hasMsg (some (⟨sm, so, some sTs⟩ : Msg)) = true := by
    simp only [hasMsg, bne_iff_ne, ne_eq]
    exact hs
  show rebuildSAux tN Conversation.empty none 0 _ = _
  rw [show rebuildSAux tN Conversation.empty none 0
      [{ user := some ⟨um, uo, some uTs⟩, system := some ⟨sm, so, some sTs⟩,
         status := none }] =
    (completeRowS tN 0 (msgOf (some ⟨um, uo, some uTs⟩))
      (msgOf (some ⟨sm, so, some sTs⟩)) Conversation.empty).1 from by
    simp only [rebuildSAux, hu', hs', Bool.and_self, if_true]]
  simp only [msgOf, Option.getD_some]
  unfold completeRowS
  dsimp only
  rw [show ({ Conversation.empty with tail := none } : Conversation) =
    (⟨0, none, none, [], []⟩ : Conversation) from rfl]
  rw [user_on_tailless]
  dsimp only
  rw [if_pos (show truthyNat (some uTs) = true from by
    simp only [truthyNat, bne_iff_ne, ne_eq]; exact hut)]
  rw [if_pos (show truthyNat (some sTs) = true from by
    simp only [truthyNat, bne_iff_ne, ne_eq]; exact hst)]
  rfl

/-! ### Well-formed persisted sequences, as rounds
A well-formed persisted history is a sequence of rounds: each round is
either one complete row, or a pending user-only row matched by its later
system-only row (the matching row must arrive before the next pair is
opened, since the rebuild loop keeps only the last pending pair). -/

/-- One well-formed unit of transcript history. -/
inductive TRound where
  | complete (u : String) (uTs : Nat) (s : String) (sTs : Nat)
  | split (u : String) (uTs : Nat) (s : String) (sTs : Nat)
deriving Repr, DecidableEq

/-- The persisted rows a transcript round stands for. -/
def TRound.rows : TRound → List TRow
  | .complete u uTs s sTs => [{ user := some (u, uTs), system := some (s, sTs) }]
  | .split u uTs s sTs => [{ user := some (u, uTs) }, { system := some (s, sTs) }]

/-- The underlying exchange of a transcript round. -/
def TRound.exchange : TRound → String × String
  | .complete u _ s _ => (u, s)
  | .split u _ s _ => (u, s)

def roundsRowsT : List TRound → List TRow
  | [] => []
  | r :: rest => r.rows ++ roundsRowsT rest

def roundsExchangesT (rs : List TRound) : List (String × String) := rs.map TRound.exchange

/-- A user-only transcript row appends the filled user node and the bare
responder placeholder. -/
theorem userRowT_nodes (t i : Nat) (c : Conversation) (u : String) (uTs : Nat)
    (hWF : ∀ n ∈ c.nodes, n.id < c.nextId) :
    (userRowT t i u uTs c).1.nodes =
      c.nodes ++ [rbUserNode t c.nextId u uTs, mkSysNode t (c.nextId + 1) c.nextId] := by
  show updNodes c.nextId (setCtTimestamp uTs)
    (c.nodes ++ [mkUserNode t u none c.nextId (c.nextId + 1) none,
      mkSysNode t (c.nextId + 1) c.nextId]) = _
  rw [updNodes_pair_left c.nodes _ _ c.nextId (setCtTimestamp uTs)
    (fun n hn => Nat.ne_of_lt (hWF n hn)) rfl
    (by show c.nextId + 1 ≠ c.nextId; omega)]
  rfl

theorem userRowT_nextId (t i : Nat) (c : Conversation) (u : String) (uTs : Nat) :
    (userRowT t i u uTs c).1.nextId = c.nextId + 2 := rfl

theorem userRowT_pair (t i : Nat) (c : Conversation) (u : String) (uTs : Nat) :
    (userRowT t i u uTs c).2 =
      ({ userId := c.nextId, systemId := c.nextId + 1, pathIdx := c.paths.length } : Pair) :=
  congrArg Prod.snd (user_on_tailless t u none c.nextId c.head c.nodes c.paths)

/-- The rebuild loop over transcript rounds appends exactly the exchange
signatures, whatever the carried pending pair is. -/
theorem rebuildTAux_rounds_sig (t : Nat) :
    ∀ (rs : List TRound) (c : Conversation) (lp : Option Pair) (i : Nat),
      (∀ n ∈ c.nodes, n.id < c.nextId) →
      (rebuildTAux t c lp i (roundsRowsT rs)).nodesSig =
        c.nodesSig ++ sigOfExchanges (roundsExchangesT rs) := by
  intro rs
  induction rs with
  | nil =>
    intro c lp i h
    show c.nodesSig = c.nodesSig ++ []
    rw [List.append_nil]
  | cons r rest ih =>
    intro c lp i h
    cases r with
    | complete u uTs s sTs =>
      rw [show rebuildTAux t c lp i (roundsRowsT (TRound.complete u uTs s sTs :: rest)) =
        rebuildTAux t (completeRowT t i u uTs s sTs c).1
          (some (completeRowT t i u uTs s sTs c).2) (i + 1) (roundsRowsT rest) from rfl]
      have hc := completeRowT_general t i c u s uTs sTs h
      have hnodes : (completeRowT t i u uTs s sTs c).1.nodes =
          c.nodes ++ [rbUserNode t c.nextId u uTs, rbSysNode t c.nextId s sTs] := by
        rw [hc]
      have hnext : (completeRowT t i u uTs s sTs c).1.nextId = c.nextId + 2 := by
        rw [hc]
      have hwf2 : ∀ n ∈ (completeRowT t i u uTs s sTs c).1.nodes,
          n.id < (completeRowT t i u uTs s sTs c).1.nextId := by
        rw [hnodes, hnext]
        intro n hn
        rcases List.mem_append.mp hn with hn | hn
        · have := h n hn
          omega
        · rcases List.mem_cons.mp hn with rfl | hn2
          · have hid : (rbUserNode t c.nextId u uTs).id = c.nextId := rfl
            omega
          · rcases List.mem_cons.mp hn2 with rfl | hn3
            · have hid : (rbSysNode t c.nextId s sTs).id = c.nextId + 1 := rfl
              omega
            · cases hn3
      rw [ih _ _ _ hwf2]
      rw [show (completeRowT t i u uTs s sTs c).1.nodesSig =
          c.nodesSig ++ [(NodeType.user, some u), (NodeType.system, some s)] from by
        show List.map nodeSig (completeRowT t i u uTs s sTs c).1.nodes = _
        rw [hnodes, List.map_append]
        rfl]
      rw [List.append_assoc]
      rfl
    | split u uTs s sTs =>
      rw [show rebuildTAux t c lp i (roundsRowsT (TRound.split u uTs s sTs :: rest)) =
        rebuildTAux t
          (finalizePendingT t (i + 1) s sTs (userRowT t i u uTs c).1
            (userRowT t i u uTs c).2)
          (some (userRowT t i u uTs c).2) (i + 2) (roundsRowsT rest) from rfl]
      have hup := userRowT_pair t i c u uTs
      have hun := userRowT_nodes t i c u uTs h
      have hnodes : (finalizePendingT t (i + 1) s sTs (userRowT t i u uTs c).1
          (userRowT t i u uTs c).2).nodes =
          c.nodes ++ [rbUserNode t c.nextId u uTs, rbSysNode t c.nextId s sTs] := by
        show updNodes (userRowT t i u uTs c).2.systemId (setCtTimestamp sTs)
            (updNodes (userRowT t i u uTs c).2.systemId (setContent t s none)
              (userRowT t i u uTs c).1.nodes) = _
        rw [hun, hup]
        show updNodes (c.nextId + 1) (setCtTimestamp sTs)
            (updNodes (c.nextId + 1) (setContent t s none)
              (c.nodes ++ [rbUserNode t c.nextId u uTs,
                mkSysNode t (c.nextId + 1) c.nextId])) = _
        rw [updNodes_pair_right c.nodes _ _ (c.nextId + 1) (setContent t s none)
          (fun n hn => by have := h n hn; omega)
          (by show c.nextId ≠ c.nextId + 1; omega) rfl]
        rw [updNodes_pair_right c.nodes _ _ (c.nextId + 1) (setCtTimestamp sTs)
          (fun n hn => by have := h n hn; omega)
          (by show c.nextId ≠ c.nextId + 1; omega) rfl]
        rfl
      have hnext : (finalizePendingT t (i + 1) s sTs (userRowT t i u uTs c).1
          (userRowT t i u uTs c).2).nextId = c.nextId + 2 := rfl
      have hwf2 : ∀ n ∈ (finalizePendingT t (i + 1) s sTs (userRowT t i u uTs c).1
          (userRowT t i u uTs c).2).nodes,
          n.id < (finalizePendingT t (i + 1) s sTs (userRowT t i u uTs c).1
            (userRowT t i u uTs c).2).nextId := by
        rw [hnodes, hnext]
        intro n hn
        rcases List.mem_append.mp hn with hn | hn
        · have := h n hn
          omega
        · rcases List.mem_cons.mp hn with rfl | hn2
          · have hid : (rbUserNode t c.nextId u uTs).id = c.nextId := rfl
            omega
          · rcases List.mem_cons.mp hn2 with rfl | hn3
            · have hid : (rbSysNode t c.nextId s sTs).id = c.nextId + 1 := rfl
              omega
            · cases hn3
      rw [ih _ _ _ hwf2]
      rw [show (finalizePendingT t (i + 1) s sTs (userRowT t i u uTs c).1
          (userRowT t i u uTs c).2).nodesSig =
          c.nodesSig ++ [(NodeType.user, some u), (NodeType.system, some s)] from by
        show List.map nodeSig (finalizePendingT t (i + 1) s sTs (userRowT t i u uTs c).1
          (userRowT t i u uTs c).2).nodes = _
        rw [hnodes, List.map_append]
        rfl]
      rw [List.append_assoc]
      rfl

/-- One well-formed unit of shape history (a split round carries the
declared status of its pending user-only row). -/
inductive SRound where
  | complete (u s : Msg)
  | split (u s : Msg) (st : Option RowStatus)
deriving Repr, DecidableEq

/-- The persisted rows a shape round stands for. -/
def SRound.rows : SRound → List Row
  | .complete u s => [{ user := some u, system := some s, status := none }]
  | .split u s st => [{ user := some u, system := none, status := st },
                      { user := none, system := some s, status := none }]

/-- The underlying exchange of a shape round. -/
def SRound.exchange : SRound → String × String
  | .complete u s => (u.message, s.message)
  | .split u s _ => (u.message, s.message)

/-- The shape loop only keeps a row side whose message is non-empty
(`hasMsg` truthiness), so a well-formed round carries non-empty ones. -/
def SRound.wf : SRound → Prop
  | .complete u s => u.message ≠ "" ∧ s.message ≠ ""
  | .split u s _ => u.message ≠ "" ∧ s.message ≠ ""

def roundsRowsS : List SRound → List Row
  | [] => []
  | r :: rest => r.rows ++ roundsRowsS rest

def roundsExchangesS (rs : List SRound) : List (String × String) := rs.map SRound.exchange

/-- The user node a shape row leaves behind: the content timestamp is set
only when the persisted timestamp is truthy. -/
def uNodeS (tN ni : Nat) (u : Msg) : Node :=
  if truthyNat u.timestamp
  then setCtTimestamp (u.timestamp.getD 0) (mkUserNode tN u.message u.options ni (ni + 1) none)
  else mkUserNode tN u.message u.options ni (ni + 1) none

/-- The responder node a complete shape row leaves behind. -/
def sNodeS (tN ni : Nat) (s : Msg) : Node :=
  if truthyNat s.timestamp
  then setCtTimestamp (s.timestamp.getD 0)
    (setContent tN s.message s.options (mkSysNode tN (ni + 1) ni))
  else setContent tN s.message s.options (mkSysNode tN (ni + 1) ni)

theorem uNodeS_true (tN ni : Nat) (u : Msg) (hb : truthyNat u.timestamp = true) :
    uNodeS tN ni u = setCtTimestamp (u.timestamp.getD 0)
      (mkUserNode tN u.message u.options ni (ni + 1) none) := by
  unfold uNodeS
  rw [if_pos hb]

theorem uNodeS_false (tN ni : Nat) (u : Msg) (hb : truthyNat u.timestamp = false) :
    uNodeS tN ni u = mkUserNode tN u.message u.options ni (ni + 1) none := by
  unfold uNodeS
  rw [if_neg (show ¬(truthyNat u.timestamp = true) from by rw [hb]; decide)]

theorem sNodeS_true (tN ni : Nat) (s : Msg) (hb : truthyNat s.timestamp = true) :
    sNodeS tN ni s = setCtTimestamp (s.timestamp.getD 0)
      (setContent tN s.message s.options (mkSysNode tN (ni + 1) ni)) := by
  unfold sNodeS
  rw [if_pos hb]

theorem sNodeS_false (tN ni : Nat) (s : Msg) (hb : truthyNat s.timestamp = false) :
    sNodeS tN ni s = setContent tN s.message s.options (mkSysNode tN (ni + 1) ni) := by
  unfold sNodeS
  rw [if_neg (show ¬(truthyNat s.timestamp = true) from by rw [hb]; decide)]

theorem uNodeS_id (tN ni : Nat) (u : Msg) : (uNodeS tN ni u).id = ni := by
  unfold uNodeS
  split <;> rfl

theorem sNodeS_id (tN ni : Nat) (s : Msg) : (sNodeS tN ni s).id = ni + 1 := by
  unfold sNodeS
  split <;> rfl

theorem uNodeS_sig (tN ni : Nat) (u : Msg) :
    nodeSig (uNodeS tN ni u) = (NodeType.user, some u.message) := by
  unfold uNodeS
  split <;> rfl

theorem sNodeS_sig (tN ni : Nat) (s : Msg) :
    nodeSig (sNodeS tN ni s) = (NodeType.system, some s.message) := by
  unfold sNodeS
  split <;> rfl

theorem completeRowS_nodes (tN i : Nat) (u s : Msg) (c : Conversation)
    (hWF : ∀ n ∈ c.nodes, n.id < c.nextId) :
    (completeRowS tN i u s c).1.nodes =
      c.nodes ++ [uNodeS tN c.nextId u, sNodeS tN c.nextId s] := by
  unfold completeRowS
  dsimp only
  rw [show ({ c with tail := none } : Conversation) =
    (⟨c.nextId, c.head, none, c.nodes, c.paths⟩ : Conversation) from rfl]
  rw [user_on_tailless]
  dsimp only
  rcases hbu : truthyNat u.timestamp with _ | _ <;>
    rcases hbs : truthyNat s.timestamp with _ | _
  · rw [uNodeS_false tN c.nextId u hbu, sNodeS_false tN c.nextId s hbs]
    show updNodes (c.nextId + 1) (setContent tN s.message s.options)
      (c.nodes ++ [mkUserNode tN u.message u.options c.nextId (c.nextId + 1) none,
        mkSysNode tN (c.nextId + 1) c.nextId]) = _
    rw [updNodes_pair_right c.nodes _ _ (c.nextId + 1)
      (setContent tN s.message s.options)
      (fun n hn => by have := hWF n hn; omega)
      (by show c.nextId ≠ c.nextId + 1; omega) rfl]
  · rw [uNodeS_false tN c.nextId u hbu, sNodeS_true tN c.nextId s hbs]
    show updNodes (c.nextId + 1) (setCtTimestamp (s.timestamp.getD 0))
      (updNodes (c.nextId + 1) (setContent tN s.message s.options)
        (c.nodes ++ [mkUserNode tN u.message u.options c.nextId (c.nextId + 1) none,
          mkSysNode tN (c.nextId + 1) c.nextId])) = _
    rw [updNodes_pair_right c.nodes _ _ (c.nextId + 1)
      (setContent tN s.message s.options)
      (fun n hn => by have := hWF n hn; omega)
      (by show c.nextId ≠ c.nextId + 1; omega) rfl]
    rw [updNodes_pair_right c.nodes _ _ (c.nextId + 1)
      (setCtTimestamp (s.timestamp.getD 0))
      (fun n hn => by have := hWF n hn; omega)
      (by show c.nextId ≠ c.nextId + 1; omega) rfl]
  · rw [uNodeS_true tN c.nextId u hbu, sNodeS_false tN c.nextId s hbs]
    show updNodes (c.nextId + 1) (setContent tN s.message s.options)
      (updNodes c.nextId (setCtTimestamp (u.timestamp.getD 0))
        (c.nodes ++ [mkUserNode tN u.message u.options c.nextId (c.nextId + 1) none,
          mkSysNode tN (c.nextId + 1) c.nextId])) = _
    rw [updNodes_pair_left c.nodes _ _ c.nextId
      (setCtTimestamp (u.timestamp.getD 0))
      (fun n hn => Nat.ne_of_lt (hWF n hn)) rfl
      (by show c.nextId + 1 ≠ c.nextId; omega)]
    rw [updNodes_pair_right c.nodes _ _ (c.nextId + 1)
      (setContent tN s.message s.options)
      (fun n hn => by have := hWF n hn; omega)
      (by show c.nextId ≠ c.nextId + 1; omega) rfl]
  · rw [uNodeS_true tN c.nextId u hbu, sNodeS_true tN c.nextId s hbs]
    show updNodes (c.nextId + 1) (setCtTimestamp (s.timestamp.getD 0))
      (updNodes (c.nextId + 1) (setContent tN s.message s.options)
        (updNodes c.nextId (setCtTimestamp (u.timestamp.getD 0))
          (c.nodes ++ [mkUserNode tN u.message u.options c.nextId (c.nextId + 1) none,
            mkSysNode tN (c.nextId + 1) c.nextId]))) = _
    rw [updNodes_pair_left c.nodes _ _ c.nextId
      (setCtTimestamp (u.timestamp.getD 0))
      (fun n hn => Nat.ne_of_lt (hWF n hn)) rfl
      (by show c.nextId + 1 ≠ c.nextId; omega)]
    rw [updNodes_pair_right c.nodes _ _ (c.nextId + 1)
      (setContent tN s.message s.options)
      (fun n hn => by have := hWF n hn; omega)
      (by show c.nextId ≠ c.nextId + 1; omega) rfl]
    rw [updNodes_pair_right c.nodes _ _ (c.nextId + 1)
      (setCtTimestamp (s.timestamp.getD 0))
      (fun n hn => by have := hWF n hn; omega)
      (by show c.nextId ≠ c.nextId + 1; omega) rfl]

theorem completeRowS_nextId (tN i : Nat) (u s : Msg) (c : Conversation) :
    (completeRowS tN i u s c).1.nextId = c.nextId + 2 := by
  unfold completeRowS
  dsimp only
  simp only [Conversation.updNode, Conversation.updPath, apply_ite Conversation.nextId,
    ite_self]
  rfl

theorem userRowS_nodes (tN i : Nat) (u : Msg) (st : Option RowStatus) (c : Conversation)
    (hWF : ∀ n ∈ c.nodes, n.id < c.nextId) :
    (userRowS tN i u st c).1.nodes =
      c.nodes ++ [uNodeS tN c.nextId u, mkSysNode tN (c.nextId + 1) c.nextId] := by
  unfold userRowS
  dsimp only
  rw [show ({ c with tail := none } : Conversation) =
    (⟨c.nextId, c.head, none, c.nodes, c.paths⟩ : Conversation) from rfl]
  rw [user_on_tailless]
  dsimp only
  rcases hbu : truthyNat u.timestamp with _ | _
  · rw [uNodeS_false tN c.nextId u hbu]
    rfl
  · rw [uNodeS_true tN c.nextId u hbu]
    show updNodes c.nextId (setCtTimestamp (u.timestamp.getD 0))
      (c.nodes ++ [mkUserNode tN u.message u.options c.nextId (c.nextId + 1) none,
        mkSysNode tN (c.nextId + 1) c.nextId]) = _
    rw [updNodes_pair_left c.nodes _ _ c.nextId
      (setCtTimestamp (u.timestamp.getD 0))
      (fun n hn => Nat.ne_of_lt (hWF n hn)) rfl
      (by show c.nextId + 1 ≠ c.nextId; omega)]

theorem userRowS_nextId (tN i : Nat) (u : Msg) (st : Option RowStatus) (c : Conversation) :
    (userRowS tN i u st c).1.nextId = c.nextId + 2 := by
  unfold userRowS
  dsimp only
  simp only [Conversation.updNode, Conversation.updPath, apply_ite Conversation.nextId,
    ite_self]
  rfl

theorem userRowS_pair (tN i : Nat) (u : Msg) (st : Option RowStatus) (c : Conversation) :
    (userRowS tN i u st c).2 =
      ({ userId := c.nextId, systemId := c.nextId + 1, pathIdx := c.paths.length } : Pair) :=
  congrArg Prod.snd (user_on_tailless tN u.message u.options c.nextId c.head c.nodes c.paths)

theorem finalizePendingS_nodes_false (tN i : Nat) (s : Msg) (c : Conversation) (lp : Pair)
    (hb : truthyNat s.timestamp = false) :
    (finalizePendingS tN i s c lp).nodes =
      updNodes lp.systemId (setContent tN s.message s.options) c.nodes := by
  unfold finalizePendingS
  dsimp only
  rw [if_neg (show ¬(truthyNat s.timestamp = true) from by rw [hb]; decide)]
  rfl

theorem finalizePendingS_nodes_true (tN i : Nat) (s : Msg) (c : Conversation) (lp : Pair)
    (hb : truthyNat s.timestamp = true) :
    (finalizePendingS tN i s c lp).nodes =
      updNodes lp.systemId (setCtTimestamp (s.timestamp.getD 0))
        (updNodes lp.systemId (setContent tN s.message s.options) c.nodes) := by
  unfold finalizePendingS
  dsimp only
  rw [if_pos hb]
  rfl

theorem finalizePendingS_nextId (tN i : Nat) (s : Msg) (c : Conversation) (lp : Pair) :
    (finalizePendingS tN i s c lp).nextId = c.nextId := by
  unfold finalizePendingS
  dsimp only
  simp only [Conversation.updNode, Conversation.updPath, apply_ite Conversation.nextId,
    ite_self]

theorem rebuildSAux_completeRow_step (t i : Nat) (u s : Msg) (c : Conversation)
    (lp : Option Pair) (rest : List Row) (hu : u.message ≠ "") (hs : s.message ≠ "") :
    rebuildSAux t c lp i ({ user := some u, system := some s, status := none } :: rest) =
      rebuildSAux t (completeRowS t i u s c).1 (some (completeRowS t i u s c).2)
        (i + 1) rest := by
  have hu' : hasMsg (some u) = true := by
    simp only [hasMsg, bne_iff_ne, ne_eq]
    exact hu
  have hs' : hasMsg (some s) = true := by
    simp only [hasMsg, bne_iff_ne, ne_eq]
    exact hs
  simp only [rebuildSAux, hu', hs', Bool.and_self, if_true, msgOf, Option.getD_some]

theorem rebuildSAux_userRow_step (t i : Nat) (u : Msg) (st : Option RowStatus)
    (c : Conversation) (lp : Option Pair) (rest : List Row) (hu : u.message ≠ "") :
    rebuildSAux t c lp i ({ user := some u, system := none, status := st } :: rest) =
      rebuildSAux t (userRowS t i u st c).1 (some (userRowS t i u st c).2)
        (i + 1) rest := by
  have hu' : hasMsg (some u) = true := by
    simp only [hasMsg, bne_iff_ne, ne_eq]
    exact hu
  simp only [rebuildSAux, hu', show hasMsg (none : Option Msg) = false from rfl,
    Bool.and_false, Bool.false_eq_true, if_false, if_true, msgOf, Option.getD_some]

theorem rebuildSAux_sysRow_step (t i : Nat) (s : Msg) (c : Conversation) (pr : Pair)
    (rest : List Row) (hs : s.message ≠ "") :
    rebuildSAux t c (some pr) i
        ({ user := none, system := some s, status := none } :: rest) =
      rebuildSAux t (finalizePendingS t i s c pr) (some pr) (i + 1) rest := by
  have hs' : hasMsg (some s) = true := by
    simp only [hasMsg, bne_iff_ne, ne_eq]
    exact hs
  simp only [rebuildSAux, hs', show hasMsg (none : Option Msg) = false from rfl,
    Bool.false_and, Bool.false_eq_true, if_false, if_true, msgOf, Option.getD_some]

/-- The rebuild loop over shape rounds appends exactly the exchange
signatures. -/
theorem rebuildSAux_rounds_sig (t : Nat) :
    ∀ (rs : List SRound), (∀ r ∈ rs, r.wf) →
    ∀ (c : Conversation) (lp : Option Pair) (i : Nat),
      (∀ n ∈ c.nodes, n.id < c.nextId) →
      (rebuildSAux t c lp i (roundsRowsS rs)).nodesSig =
        c.nodesSig ++ sigOfExchanges (roundsExchangesS rs) := by
  intro rs
  induction rs with
  | nil =>
    intro _ c lp i h
    show c.nodesSig = c.nodesSig ++ []
    rw [List.append_nil]
  | cons r rest ih =>
    intro hwf c lp i h
    cases r with
    | complete u s =>
      obtain ⟨hu, hs⟩ := hwf (SRound.complete u s) (List.mem_cons_self _ _)
      show (rebuildSAux t c lp i ({ user := some u, system := some s, status := none } ::
        roundsRowsS rest)).nodesSig = _
      rw [rebuildSAux_completeRow_step t i u s c lp (roundsRowsS rest) hu hs]
      have hnodes := completeRowS_nodes t i u s c h
      have hnext := completeRowS_nextId t i u s c
      have hwf2 : ∀ n ∈ (completeRowS t i u s c).1.nodes,
          n.id < (completeRowS t i u s c).1.nextId := by
        rw [hnodes, hnext]
        intro n hn
        rcases List.mem_append.mp hn with hn | hn
        · have := h n hn
          omega
        · rcases List.mem_cons.mp hn with rfl | hn2
          · have hid := uNodeS_id t c.nextId u
            omega
          · rcases List.mem_cons.mp hn2 with rfl | hn3
            · have hid := sNodeS_id t c.nextId s
              omega
            · cases hn3
      rw [ih (fun x hx => hwf x (List.mem_cons_of_mem _ hx)) _ _ _ hwf2]
      rw [show (completeRowS t i u s c).1.nodesSig =
          c.nodesSig ++ [(NodeType.user, some u.message),
            (NodeType.system, some s.message)] from by
        show List.map nodeSig (completeRowS t i u s c).1.nodes = _
        rw [hnodes, List.map_append]
        rw [show List.map nodeSig [uNodeS t c.nextId u, sNodeS t c.nextId s] =
            [(NodeType.user, some u.message), (NodeType.system, some s.message)] from by
          simp only [List.map_cons, List.map_nil, uNodeS_sig, sNodeS_sig]]
        rfl]
      rw [List.append_assoc]
      rfl
    | split u s st =>
      obtain ⟨hu, hs⟩ := hwf (SRound.split u s st) (List.mem_cons_self _ _)
      show (rebuildSAux t c lp i ({ user := some u, system := none, status := st } ::
        { user := none, system := some s, status := none } ::
        roundsRowsS rest)).nodesSig = _
      rw [rebuildSAux_userRow_step t i u st c lp _ hu]
      rw [rebuildSAux_sysRow_step t (i + 1) s (userRowS t i u st c).1
        (userRowS t i u st c).2 _ hs]
      have hup := userRowS_pair t i u st c
      have hun := userRowS_nodes t i u st c h
      have hunx := userRowS_nextId t i u st c
      have hnodes : (finalizePendingS t (i + 1) s (userRowS t i u st c).1
          (userRowS t i u st c).2).nodes =
          c.nodes ++ [uNodeS t c.nextId u, sNodeS t c.nextId s] := by
        rcases hbs : truthyNat s.timestamp with _ | _
        · rw [sNodeS_false t c.nextId s hbs]
          rw [finalizePendingS_nodes_false t (i + 1) s _ _ hbs]
          rw [hup, hun]
          show updNodes (c.nextId + 1) (setContent t s.message s.options)
            (c.nodes ++ [uNodeS t c.nextId u, mkSysNode t (c.nextId + 1) c.nextId]) = _
          rw [updNodes_pair_right c.nodes _ _ (c.nextId + 1)
            (setContent t s.message s.options)
            (fun n hn => by have := h n hn; omega)
            (by rw [uNodeS_id]; omega) rfl]
        · rw [sNodeS_true t c.nextId s hbs]
          rw [finalizePendingS_nodes_true t (i + 1) s _ _ hbs]
          rw [hup, hun]
          show updNodes (c.nextId + 1) (setCtTimestamp (s.timestamp.getD 0))
            (updNodes (c.nextId + 1) (setContent t s.message s.options)
              (c.nodes ++ [uNodeS t c.nextId u,
                mkSysNode t (c.nextId + 1) c.nextId])) = _
          rw [updNodes_pair_right c.nodes _ _ (c.nextId + 1)
            (setContent t s.message s.options)
            (fun n hn => by have := h n hn; omega)
            (by rw [uNodeS_id]; omega) rfl]
          rw [updNodes_pair_right c.nodes _ _ (c.nextId + 1)
            (setCtTimestamp (s.timestamp.getD 0))
            (fun n hn => by have := h n hn; omega)
            (by rw [uNodeS_id]; omega) rfl]
      have hnext : (finalizePendingS t (i + 1) s (userRowS t i u st c).1
          (userRowS t i u st c).2).nextId = c.nextId + 2 := by
        rw [finalizePendingS_nextId, hunx]
      have hwf2 : ∀ n ∈ (finalizePendingS t (i + 1) s (userRowS t i u st c).1
          (userRowS t i u st c).2).nodes,
          n.id < (finalizePendingS t (i + 1) s (userRowS t i u st c).1
            (userRowS t i u st c).2).nextId := by
        rw [hnodes, hnext]
        intro n hn
        rcases List.mem_append.mp hn with hn | hn
        · have := h n hn
          omega
        · rcases List.mem_cons.mp hn with rfl | hn2
          · have hid := uNodeS_id t c.nextId u
            omega
          · rcases List.mem_cons.mp hn2 with rfl | hn3
            · have hid := sNodeS_id t c.nextId s
              omega
            · cases hn3
      rw [ih (fun x hx => hwf x (List.mem_cons_of_mem _ hx)) _ _ _ hwf2]
      rw [show (finalizePendingS t (i + 1) s (userRowS t i u st c).1
          (userRowS t i u st c).2).nodesSig =
          c.nodesSig ++ [(NodeType.user, some u.message),
            (NodeType.system, some s.message)] from by
        show List.map nodeSig (finalizePendingS t (i + 1) s (userRowS t i u st c).1
          (userRowS t i u st c).2).nodes = _
        rw [hnodes, List.map_append]
        rw [show List.map nodeSig [uNodeS t c.nextId u, sNodeS t c.nextId s] =
            [(NodeType.user, some u.message), (NodeType.system, some s.message)] from by
          simp only [List.map_cons, List.map_nil, uNodeS_sig, sNodeS_sig]]
        rfl]
      rw [List.append_assoc]
      rfl

/-- C1 (amended): over every well-formed persisted sequence — any mix of
complete rows and pending user-only rows each matched by their later
system-only row, in both input formats — reconstruction agrees with the
live `user()` + `resolveAssistant()` build on the insertion-order
signature of the node arena (same roles, same messages, same order), with
node content and timestamps taken from the persisted data; but the
`chain()`-traversal and final-tail equivalence of the original claim
survives only up to one round, because rebuild suppresses the cross-round
links the traversal needs (see the counterexample). -/
theorem claim1_refinement_amended (t : Nat) (trs : List TRound) (srs : List SRound)
    (hs : ∀ r ∈ srs, r.wf) :
    (rebuildConversationFromTranscript t (roundsRowsT trs)).nodesSig =
      (liveFromExchanges t (roundsExchangesT trs) Conversation.empty).nodesSig ∧
    (rebuildConversationFromShape t (roundsRowsS srs)).nodesSig =
      (liveFromExchanges t (roundsExchangesS srs) Conversation.empty).nodesSig ∧
    (trs.length ≤ 1 →
      (rebuildConversationFromTranscript t (roundsRowsT trs)).chainSig =
        (liveFromExchanges t (roundsExchangesT trs) Conversation.empty).chainSig ∧
      ((rebuildConversationFromTranscript t (roundsRowsT trs)).nodes.getLast?).map
          Node.id =
        (rebuildConversationFromTranscript t (roundsRowsT trs)).tail) := by
  have hempty : ∀ n ∈ Conversation.empty.nodes, n.id < Conversation.empty.nextId := by
    intro n hn
    exact absurd hn (List.not_mem_nil n)
  refine ⟨?_, ?_, ?_⟩
  · show (rebuildTAux t Conversation.empty none 0 (roundsRowsT trs)).nodesSig = _
    rw [rebuildTAux_rounds_sig t trs Conversation.empty none 0 hempty,
      liveFromExchanges_sig t (roundsExchangesT trs) Conversation.empty hempty]
  · show (rebuildSAux t Conversation.empty none 0 (roundsRowsS srs)).nodesSig = _
    rw [rebuildSAux_rounds_sig t srs hs Conversation.empty none 0 hempty,
      liveFromExchanges_sig t (roundsExchangesS srs) Conversation.empty hempty]
  · intro hlen
    rcases trs with _ | ⟨r, rest⟩
    · exact ⟨rfl, rfl⟩
    · rcases rest with _ | ⟨r2, rest2⟩
      · cases r with
        | complete u uTs s sTs => exact ⟨rfl, rfl⟩
        | split u uTs s sTs => exact ⟨rfl, rfl⟩
      · simp at hlen

/-- Witness for C1 (amended): a complete round followed by a matched
pending round, in both formats. -/
theorem claim1_refinement_amended_witness :
    (rebuildConversationFromTranscript 100 (roundsRowsT
      [TRound.complete "U1" 1 "S1" 2, TRound.split "U2" 3 "S2" 4])).nodesSig =
      (liveFromExchanges 100 (roundsExchangesT
        [TRound.complete "U1" 1 "S1" 2, TRound.split "U2" 3 "S2" 4])
        Conversation.empty).nodesSig ∧
    (rebuildConversationFromShape 100 (roundsRowsS
      [SRound.complete ⟨"A", none, some 5⟩ ⟨"B", none, none⟩,
       SRound.split ⟨"C", none, none⟩ ⟨"D", none, some 7⟩
         (some RowStatus.running)])).nodesSig =
      (liveFromExchanges 100 (roundsExchangesS
        [SRound.complete ⟨"A", none, some 5⟩ ⟨"B", none, none⟩,
         SRound.split ⟨"C", none, none⟩ ⟨"D", none, some 7⟩ (some RowStatus.running)])
        Conversation.empty).nodesSig ∧
    (([TRound.complete "U1" 1 "S1" 2,
       TRound.split "U2" 3 "S2" 4] : List TRound).length ≤ 1 →
      (rebuildConversationFromTranscript 100 (roundsRowsT
        [TRound.complete "U1" 1 "S1" 2, TRound.split "U2" 3 "S2" 4])).chainSig =
        (liveFromExchanges 100 (roundsExchangesT
          [TRound.complete "U1" 1 "S1" 2, TRound.split "U2" 3 "S2" 4])
          Conversation.empty).chainSig ∧
      ((rebuildConversationFromTranscript 100 (roundsRowsT
        [TRound.complete "U1" 1 "S1" 2,
         TRound.split "U2" 3 "S2" 4])).nodes.getLast?).map Node.id =
        (rebuildConversationFromTranscript 100 (roundsRowsT
          [TRound.complete "U1" 1 "S1" 2, TRound.split "U2" 3 "S2" 4])).tail) :=
  claim1_refinement_amended 100
    [TRound.complete "U1" 1 "S1" 2, TRound.split "U2" 3 "S2" 4]
    [SRound.complete ⟨"A", none, some 5⟩ ⟨"B", none, none⟩,
     SRound.split ⟨"C", none, none⟩ ⟨"D", none, some 7⟩ (some RowStatus.running)]
    (by
      intro r hr
      rcases List.mem_cons.mp hr with rfl | hr2
      · exact ⟨by decide, by decide⟩
      · rcases List.mem_cons.mp hr2 with rfl | hr3
        · exact ⟨by decide, by decide⟩
        · cases hr3)


end AIChat

